import Mathlib

/-
Verification of copytags.py (DarwinAwardWinner/copytags).

The program is embedded shallowly:
* paths are Lean `String`s; the POSIX path helpers used by the program
  (os.path.normpath, os.path.join, os.path.splitext, os.path.basename,
  os.path.dirname, str.split) are embedded following CPython's posixpath,
  working on the underlying `List Char` so that everything reduces in the
  kernel;
* the filesystem is an explicit directory tree (`Dirent`) plus abstract
  environment functions (`listdir`, `isAudio`, `realpath`) standing for the
  OS calls;
* mutagen tag dictionaries are insertion-ordered association lists.
-/

set_option maxRecDepth 8192

/-! ## CPython string/path primitives -/

/-- Python `s.split(sep)` for a one-character separator: CPython returns
`[""]` for the empty string and an empty piece between adjacent separators. -/
def splitSep (sep : Char) : List Char → List (List Char)
  | [] => [[]]
  | c :: cs =>
    match splitSep sep cs with
    | [] => [[c]]
    | h :: t => if c = sep then [] :: h :: t else (c :: h) :: t

/-- Python `sep.join(pieces)` for a one-character separator. -/
def joinSep (sep : Char) : List (List Char) → List Char
  | [] => []
  | [s] => s
  | s :: rest => s ++ sep :: joinSep sep rest

/-- Index of the last occurrence of `c` (CPython `str.rfind`, as `Option`). -/
def rfindIdx (c : Char) : List Char → Option Nat
  | [] => none
  | a :: as =>
    match rfindIdx c as with
    | some i => some (i + 1)
    | none => if a = c then some 0 else none

/-- `os.path.splitext(p)[0]` following CPython `genericpath._splitext` with
`sep = '/'` and `extsep = '.'`: the extension starts at the last dot, provided
some character of the basename strictly before that dot is not a dot (so
`.bashrc` has no extension). -/
def splitextBaseC (l : List Char) : List Char :=
  let fIdx : Nat := match rfindIdx '/' l with | some i => i + 1 | none => 0
  match rfindIdx '.' l with
  | none => l
  | some d =>
    if fIdx ≤ d then
      if ((l.drop fIdx).take (d - fIdx)).any (fun ch => ch != '.') then l.take d else l
    else l

def splitextBaseStr (s : String) : String := ⟨splitextBaseC s.data⟩

/-- `os.path.basename` for POSIX paths: the part after the last `'/'`. -/
def basenameC (l : List Char) : List Char :=
  (l.reverse.takeWhile (fun c => c != '/')).reverse

def basenameStr (s : String) : String := ⟨basenameC s.data⟩

/-- `os.path.dirname` for POSIX paths: the part up to the last `'/'`, with
trailing slashes stripped unless the result consists only of slashes. -/
def dirnameC (l : List Char) : List Char :=
  let tailLen := (l.reverse.takeWhile (fun c => c != '/')).length
  let head := l.take (l.length - tailLen)
  if head.any (fun c => c != '/') then (head.reverse.dropWhile (fun c => c == '/')).reverse
  else head

def dirnameStr (s : String) : String := ⟨dirnameC s.data⟩

/-- One step of CPython `posixpath.normpath`'s component loop: skip empty and
`'.'` components, collapse `".."` against a previous real component. -/
def npStep (isAbs : Bool) (acc : List (List Char)) (comp : List Char) : List (List Char) :=
  if comp = [] ∨ comp = ['.'] then acc
  else if comp ≠ ['.', '.'] ∨ (isAbs = false ∧ acc = []) ∨ acc.getLast? = some ['.', '.'] then
    acc ++ [comp]
  else acc.dropLast

/-- The number of leading slashes CPython `posixpath.normpath` preserves
(two slashes are kept verbatim by POSIX, three or more collapse to one). -/
def nInitialSlashes (p : List Char) : Nat :=
  if p.take 1 = ['/'] then
    if p.take 2 = ['/', '/'] ∧ ¬ p.take 3 = ['/', '/', '/'] then 2 else 1
  else 0

/-- CPython `posixpath.normpath`: split on `'/'`, fold the component loop,
re-join, re-attach the preserved leading slashes, and return `"."` for an
empty result. -/
def normpathC (p : List Char) : List Char :=
  if p = [] then ['.']
  else
    if List.replicate (nInitialSlashes p) '/'
        ++ joinSep '/' ((splitSep '/' p).foldl (npStep (nInitialSlashes p != 0)) []) = [] then
      ['.']
    else
      List.replicate (nInitialSlashes p) '/'
        ++ joinSep '/' ((splitSep '/' p).foldl (npStep (nInitialSlashes p != 0)) [])

def normpath (s : String) : String := ⟨normpathC s.data⟩

/-- `os.path.join(a, b)` for POSIX paths. -/
def pyJoin2C (a b : List Char) : List Char :=
  if b.take 1 = ['/'] then b
  else if a = [] ∨ a.getLast? = some '/' then a ++ b
  else a ++ '/' :: b

def pyJoin2S (a b : String) : String := ⟨pyJoin2C a.data b.data⟩

/-- `os.path.join(*pieces)` (the program only calls it with a non-empty
argument list). -/
def pyJoinListC : List (List Char) → List Char
  | [] => []
  | h :: t => t.foldl pyJoin2C h

/-- Python string `<` (lexicographic on code points). -/
def strLtC : List Char → List Char → Bool
  | [], [] => false
  | [], _ :: _ => true
  | _ :: _, [] => false
  | a :: as, b :: bs => if a = b then strLtC as bs else decide (a.val < b.val)

/-- Python string `<=`, the order used by `sorted()` on strings. -/
def pyStrLe (a b : String) : Bool := strLtC a.data b.data || a == b

/-- Python `sorted()` on a list of strings.  Any stable sort by a total order
computes the same list; we use insertion sort. -/
def pySorted (l : List String) : List String :=
  List.insertionSort (fun a b => pyStrLe a b = true) l


/-! ## Path mapper (copytags.substitute_prefix / find_file_any_ext / find_source_file) -/

/-- The two error conditions raised by the path mapper (Python raises bare
`Exception`s with distinct messages; we give them distinct constructors). -/
inductive PathErr where
  | prefixMismatch (path oldp : String) : PathErr
  | noMatchingFile (path : String) : PathErr
deriving DecidableEq

/-- The `full_path[0] == '' → '/'` fix-up of `substitute_prefix` ("Absolute
path ends up with an empty string at the front, which must be changed to a
slash"). -/
def fixLeadingEmpty : List (List Char) → List (List Char)
  | [] => []
  | h :: t => if h = [] then ['/'] :: t else h :: t

/-- Embeds `copytags.substitute_prefix`: normalize all three paths and split
them on `'/'`; compare `oldprefix`'s components with the corresponding leading
components of `path` (note: the comparison is a `zip`, which truncates to the
shorter list, exactly as Python's `zip` does); on success replace the prefix,
turn a leading empty component into `'/'`, and `os.path.join` the pieces. -/
def substRootsC (path oldp newp : List Char) : Except PathErr (List Char) :=
  if ((splitSep '/' (normpathC oldp)).zip
      ((splitSep '/' (normpathC path)).take (splitSep '/' (normpathC oldp)).length)).all
      (fun ab => ab.1 == ab.2) then
    .ok (pyJoinListC (fixLeadingEmpty
      (splitSep '/' (normpathC newp)
        ++ (splitSep '/' (normpathC path)).drop (splitSep '/' (normpathC oldp)).length)))
  else
    .error (.prefixMismatch ⟨path⟩ ⟨oldp⟩)

/-- String-level wrapper for `substitute_prefix`. -/
def substRoots (path oldp newp : String) : Except PathErr String :=
  (substRootsC path.data oldp.data newp.data).map (fun l => ⟨l⟩)

/-- Normalized path components of a path, the quantity `substitute_prefix`
actually compares ("segments" in the specification). -/
def pySegs (s : String) : List (List Char) := splitSep '/' (normpathC s.data)

/-- Embeds `copytags.find_file_any_ext` over an abstract `os.listdir`
(`listdir dir` is the list of names of all entries in `dir`, of any kind):
sort the listing, return the first entry whose name without extension equals
the target's basename, else raise. -/
def find_file_any_ext (listdir : String → List String) (path : String) : Except PathErr String :=
  let target_base := basenameStr path
  let target_dir := dirnameStr path
  let files := pySorted (listdir target_dir)
  match files.find? (fun p => splitextBaseStr p == target_base) with
  | some f => .ok (pyJoin2S target_dir f)
  | none => .error (.noMatchingFile path)

/-- Embeds `copytags.find_source_file`: substitute the root, strip the
extension, search for any extension. -/
def find_source_file (listdir : String → List String) (dest_file src dest : String) :
    Except PathErr String :=
  match substRoots dest_file dest src with
  | .error e => .error e
  | .ok subbed => find_file_any_ext listdir (splitextBaseStr subbed)


/-! ## File enumerator (copytags.remove_hidden_paths / unique / get_all_music_files) -/

/-- A directory tree.  `dirlink` is a symbolic link to a directory (walked,
because the program calls `os.walk` with `followlinks=True`); its `target`
records the canonical path of the directory it points to. -/
inductive Dirent where
  | file (name : String) : Dirent
  | dir (name : String) (entries : List Dirent) : Dirent
  | dirlink (name : String) (target : String) (entries : List Dirent) : Dirent

/-- The regex `'^\.'` of `copytags.remove_hidden_paths` matches iff the name
starts with a dot. -/
def startsDot (p : String) : Bool := p.data.take 1 == ['.']

/-- Embeds `copytags.remove_hidden_paths`. -/
def remove_hidden_paths (paths : List String) : List String :=
  paths.filter (fun p => !startsDot p)

/-- The `files` component of one `os.walk` triple: names of the non-directory
entries of a directory, in listing order. -/
def fileNames (entries : List Dirent) : List String :=
  entries.filterMap fun e =>
    match e with
    | .file n => some n
    | _ => none

/-- One level of the loop body of `copytags.get_all_music_files`: filter
hidden file names, then load every remaining `os.path.join(root, x)` with
`MusicFile` and keep the recognized ones.  `isAudio p` abstracts
`MusicFile(p) is not None`. -/
def loadLevel (isAudio : String → Bool) (ignore_hidden : Bool) (root : String)
    (entries : List Dirent) : List String :=
  let files := fileNames entries
  let files := if ignore_hidden then remove_hidden_paths files else files
  (files.map (pyJoin2S root)).filter isAudio

/-- The recursive part of the `os.walk` traversal.  NOTE the faithful bug:
the Python code executes `dirs = remove_hidden_paths(dirs)`, which rebinds a
local variable instead of mutating `os.walk`'s `dirs` list in place, so the
walk descends into every subdirectory, hidden ones included (`followlinks=True`
also descends into directory symlinks). -/
def walkSubs (isAudio : String → Bool) (ignore_hidden : Bool) (root : String) :
    List Dirent → List String
  | [] => []
  | .file _ :: rest => walkSubs isAudio ignore_hidden root rest
  | .dir n es :: rest =>
    loadLevel isAudio ignore_hidden (pyJoin2S root n) es
      ++ walkSubs isAudio ignore_hidden (pyJoin2S root n) es
      ++ walkSubs isAudio ignore_hidden root rest
  | .dirlink n _ es :: rest =>
    loadLevel isAudio ignore_hidden (pyJoin2S root n) es
      ++ walkSubs isAudio ignore_hidden (pyJoin2S root n) es
      ++ walkSubs isAudio ignore_hidden root rest

/-- All music files collected by the `os.walk` loop of
`copytags.get_all_music_files` over the tree rooted at `root`. -/
def walk (isAudio : String → Bool) (ignore_hidden : Bool) (root : String)
    (entries : List Dirent) : List String :=
  loadLevel isAudio ignore_hidden root entries ++ walkSubs isAudio ignore_hidden root entries

/-- Python dict assignment `d[k] = v` on an insertion-ordered association
list: an existing key keeps its position and receives the new value; a new key
is appended at the end. -/
def dictUpd {α : Type} (d : List (String × α)) (k : String) (v : α) : List (String × α) :=
  if d.any (fun p => p.1 == k) then d.map (fun p => if p.1 == k then (k, v) else p)
  else d ++ [(k, v)]

/-- A Python dict built by inserting the given key/value pairs in order. -/
def pyDict {α : Type} (l : List (String × α)) : List (String × α) :=
  l.foldl (fun d p => dictUpd d p.1 p.2) []

/-- First-match association lookup (`d[k]` on an ordered mapping). -/
def alookup {α : Type} (l : List (String × α)) (k : String) : Option α :=
  (l.find? (fun p => p.1 == k)).map Prod.snd

/-- Embeds `copytags.unique` in the `key_fun` branch the program uses:
`list(dict-comprehension keyed by key_fun).values())`. -/
def unique {α : Type} (key_fun : α → String) (items : List α) : List α :=
  (pyDict (items.map fun i => (key_fun i, i))).map Prod.snd

/-- Embeds `copytags.get_all_music_files` for a single directory argument:
walk the tree, deduplicate by `x.filename`, and sort.  A mutagen handle is
represented by its `filename` (the only field the program reads), so
`key_fun = lambda x: x.filename` is the identity and `sorted()` orders by that
filename. -/
def get_all_music_files (isAudio : String → Bool) (root : String) (entries : List Dirent)
    (ignore_hidden : Bool := true) : List String :=
  pySorted (unique (fun s => s) (walk isAudio ignore_hidden root entries))

/-- Follows the WORDS OF CLAIM C8 (not the program): the canonical resolved
path of every file the walk reaches, obtained by walking the same tree while
carrying the canonical directory alongside the traversal directory; a
`dirlink` contributes its stored `target` as the canonical root of its
subtree.  Pairs are `(traversal path, canonical path)`. -/
def canonicalSubs (isAudio : String → Bool) (ignore_hidden : Bool) (root canonRoot : String) :
    List Dirent → List (String × String)
  | [] => []
  | .file _ :: rest => canonicalSubs isAudio ignore_hidden root canonRoot rest
  | .dir n es :: rest =>
    canonicalLevel isAudio ignore_hidden (pyJoin2S root n) (pyJoin2S canonRoot n) es
      ++ canonicalSubs isAudio ignore_hidden (pyJoin2S root n) (pyJoin2S canonRoot n) es
      ++ canonicalSubs isAudio ignore_hidden root canonRoot rest
  | .dirlink n target es :: rest =>
    canonicalLevel isAudio ignore_hidden (pyJoin2S root n) target es
      ++ canonicalSubs isAudio ignore_hidden (pyJoin2S root n) target es
      ++ canonicalSubs isAudio ignore_hidden root canonRoot rest
where
  canonicalLevel (isAudio : String → Bool) (ignore_hidden : Bool) (r c : String)
      (entries : List Dirent) : List (String × String) :=
    let files := fileNames entries
    let files := if ignore_hidden then remove_hidden_paths files else files
    (files.map (fun n => (pyJoin2S r n, pyJoin2S c n))).filter (fun p => isAudio p.1)

/-- Canonical-path view of the whole walk (claim C8's wording). -/
def canonicalWalk (isAudio : String → Bool) (ignore_hidden : Bool) (root : String)
    (entries : List Dirent) : List (String × String) :=
  canonicalSubs.canonicalLevel isAudio ignore_hidden root root entries
    ++ canonicalSubs isAudio ignore_hidden root root entries

/-! ## Tag store adapter (copytags.AudioFile) -/

/-- A tag value: "string or list of strings"; modelled as a list of strings. -/
abbrev TagVal := List String

/-- The underlying mutagen tag dictionary: an insertion-ordered mapping. -/
abbrev TagData := List (String × TagVal)

/-- A compiled blacklist pattern.  The program uses two shapes of regex with
`re.search`: the anchored `'^~'` (match at the start) and plain literals
(`'encoded'`, `'replaygain'`, substring search). -/
inductive TagPat where
  | anchorPat (lit : String) : TagPat
  | substrPat (lit : String) : TagPat
deriving DecidableEq

/-- Is `needle` a contiguous substring of `hay`? (`re.search` with a literal
pattern). -/
def isSubstring (needle : List Char) : List Char → Bool
  | [] => needle == []
  | c :: t => needle.isPrefixOf (c :: t) || isSubstring needle t

/-- `re.search(pat, key) is not None` for the two pattern shapes. -/
def patMatches : TagPat → String → Bool
  | .anchorPat l, s => l.data.isPrefixOf s.data
  | .substrPat l, s => isSubstring l.data s.data

/-- Embeds `copytags.AudioFile`: the parsed tag dictionary (`.data`), the set
of keys the file format accepts on assignment (`supported k = false` models
the underlying `__setitem__` raising `KeyError` for that key), and the
blacklist. -/
structure AudioFile where
  data : TagData
  supported : String → Bool
  blacklist : List TagPat

/-- `AudioFile.__init__`: the constructor prepends `re.compile("^~")` to the
given blacklist ("Also exclude mutagen's internal tags"). -/
def mkAudioFile (data : TagData) (supported : String → Bool) (blacklist : List TagPat) :
    AudioFile :=
  ⟨data, supported, .anchorPat "~" :: blacklist⟩

/-- `AudioFile.blacklisted`: some blacklist regex matches the key. -/
def AudioFile.blacklisted (f : AudioFile) (item : String) : Bool :=
  f.blacklist.any (fun pat => patMatches pat item)

/-- `AudioFile.keys`: underlying keys with the blacklisted ones removed. -/
def AudioFile.keys (f : AudioFile) : List String :=
  (f.data.map Prod.fst).filter (fun k => !f.blacklisted k)

/-- `AudioFile.__getitem__`: a blacklisted key is only logged and `None` is
returned; otherwise the underlying dictionary is consulted (Python raises
`KeyError` for an absent non-blacklisted key; the program only reads keys it
knows are present, so absence is modelled as `none` too). -/
def AudioFile.getItem (f : AudioFile) (item : String) : Option TagVal :=
  if f.blacklisted item then none else alookup f.data item

/-- `AudioFile.__setitem__`: a blacklisted key is logged and dropped; an
unsupported key raises `KeyError` underneath, which is caught, logged and
skipped; otherwise the underlying dictionary is updated. -/
def AudioFile.setItem (f : AudioFile) (item : String) (value : TagVal) : AudioFile :=
  if f.blacklisted item then f
  else if f.supported item then { f with data := dictUpd f.data item value }
  else f

/-- `AudioFile.__delitem__`: a blacklisted key is logged and dropped;
otherwise the key is removed from the underlying dictionary. -/
def AudioFile.delItem (f : AudioFile) (item : String) : AudioFile :=
  if f.blacklisted item then f
  else { f with data := f.data.filter (fun p => !(p.1 == item)) }

/-- `MutableMapping.clear` repeatedly pops a key of `keys()` and deletes it
until iteration is empty; the net effect is that exactly the non-blacklisted
entries of the underlying dictionary are removed. -/
def AudioFile.clear (f : AudioFile) : AudioFile :=
  { f with data := f.data.filter (fun p => f.blacklisted p.1) }

/-- `MutableMapping.update(self, other)`: `for key in other: self[key] =
other[key]`, i.e. a fold of `__setitem__` over `other.keys()` in order,
reading each value through `other.__getitem__`. -/
def AudioFile.update (self other : AudioFile) : AudioFile :=
  other.keys.foldl (fun d k => d.setItem k ((other.getItem k).getD [])) self

/-- `copytags.blacklist_regexes`: non-transferrable tags. -/
def blacklist_regexes : List TagPat := [.substrPat "encoded", .substrPat "replaygain"]

/-! ## Copy engine (copytags.copy_tags / copy_tags_recursive) and CLI -/

/-- Embeds the successful path of `copytags.copy_tags` acting on the parsed
tag dictionaries: build the source adapter with `blacklist_regexes`, build the
destination adapter passing `m_src.blacklist` as its blacklist (the
constructor prepends another `"^~"`), `clear()` the destination, `update` it
from the source, and `write()` (persistence returns the final dictionary).
The `except AACError` arm (destination format supports no tags at all) aborts
the write and leaves the destination unchanged; claims quantify over runs
where the copy succeeds. -/
def copy_tags (srcData destData : TagData) (srcSupported destSupported : String → Bool) :
    TagData :=
  let m_src := mkAudioFile srcData srcSupported blacklist_regexes
  let m_dest := mkAudioFile destData destSupported m_src.blacklist
  (m_dest.clear.update m_src).data

/-- Embeds `copytags.find_file_pairs`: enumerate the destination tree (with
the default `ignore_hidden=True`) and pair each destination file with its
resolved source.  The Python generator raises lazily during iteration; each
element is therefore an `Except`: the pair, or the exception raised while
resolving it. -/
def find_file_pairs (isAudio : String → Bool) (listdir : String → List String)
    (src dest : String) (destEntries : List Dirent) :
    List (Except PathErr (String × String)) :=
  (get_all_music_files isAudio dest destEntries).map
    (fun destfile => (find_source_file listdir destfile src dest).map (fun s => (s, destfile)))

/-- The `for pair in find_file_pairs(...)` loop of `copy_tags_recursive`:
each successfully resolved pair is passed to `copy_tags` (recorded in order);
an exception raised by the generator propagates, aborting the loop.  Returns
the pairs copied before the abort, and the propagated exception if any.
(`copy_tags` itself catches its `AACError` internally, so it never aborts the
loop.) -/
def runPairs : List (Except PathErr (String × String)) →
    List (String × String) × Option PathErr
  | [] => ([], none)
  | .error e :: _ => ([], some e)
  | .ok p :: rest =>
    let r := runPairs rest
    (p :: r.1, r.2)

/-- Embeds `copytags.copy_tags_recursive`: `os.path.realpath` both roots,
then run the pair loop. -/
def copy_tags_recursive (isAudio : String → Bool) (listdir : String → List String)
    (realpath : String → String) (srcdir destdir : String) (destEntries : List Dirent) :
    List (String × String) × Option PathErr :=
  runPairs (find_file_pairs isAudio listdir (realpath srcdir) (realpath destdir) destEntries)

/-- `sys.argv[1::2]` over the user arguments (`args = sys.argv[1:]`): the
elements at even 0-based positions of `args`. -/
def everyOther {α : Type} : List α → List α
  | [] => []
  | [x] => [x]
  | x :: _ :: rest => x :: everyOther rest

/-- `zip(sys.argv[1::2], sys.argv[2::2])`: the (source, destination) argument
pairs in command-line order. -/
def pairedArgs (args : List String) : List (String × String) :=
  (everyOther args).zip (everyOther (args.drop 1))

/-- Embeds `file_pairs = dict(zip(sys.argv[1::2], sys.argv[2::2]))` from the
`__main__` block: the pairs actually processed, in dict order. -/
def mainPairs (args : List String) : List (String × String) :=
  pyDict (pairedArgs args)


/-- The name of a directory entry, as reported by `os.listdir` (which does
not distinguish entry kinds). -/
def direntName : Dirent → String
  | .file n => n
  | .dir n _ => n
  | .dirlink n _ _ => n


/-- A plain path component: non-empty, not `"."` or `".."`, containing no
separator.  The hypotheses of the corrected C4 are phrased with it. -/
abbrev goodSeg (s : List Char) : Prop :=
  s ≠ [] ∧ s ≠ ['.'] ∧ s ≠ ['.', '.'] ∧ '/' ∉ s

/-- A clean component list: absolute (one leading empty component, then at
least one plain component) or relative (only plain components). -/
abbrev cleanSegs (L : List (List Char)) : Prop :=
  L ≠ [] ∧
    ((L.head? = some [] ∧ L.tail ≠ [] ∧ ∀ s ∈ L.tail, goodSeg s) ∨
     (L.head? ≠ some [] ∧ ∀ s ∈ L, goodSeg s))


/-! ## Evaluation checks of the CPython path embedding (values verified
against CPython) -/

example : normpath "/a//b/./c" = "/a/b/c" := rfl
example : normpath "" = "." := rfl
example : normpath "//a" = "//a" := rfl
example : normpath "///a" = "/a" := rfl
example : normpath "/" = "/" := rfl
example : normpath "../../a/.." = "../.." := rfl
example : splitextBaseStr "/dir/.bashrc" = "/dir/.bashrc" := rfl
example : splitextBaseStr "a.tar.gz" = "a.tar" := rfl
example : splitextBaseStr "/a.b/c" = "/a.b/c" := rfl
example : splitextBaseStr "..." = "..." := rfl
example : splitextBaseStr "..a.b" = "..a" := rfl
example : basenameStr "/a/b" = "b" := rfl
example : dirnameStr "/a/b" = "/a" := rfl
example : dirnameStr "a" = "" := rfl
example : dirnameStr "/a" = "/" := rfl
example : dirnameStr "//a//b//" = "//a//b" := rfl
example : pyJoin2S "/a" "b" = "/a/b" := rfl
example : pyJoin2S "a" "/b" = "/b" := rfl
example : pyJoin2S "" "x" = "x" := rfl
example : pyJoinListC ['/'.toString.data, ['a'], ['b']] = "/a/b".data := rfl
example : pySorted ["track.flac", "track"] = ["track", "track.flac"] := rfl
example : substRoots "/a/b/c" "/a" "/z" = .ok "/z/b/c" := rfl
example : substRoots "/a/b/c" "/x/y" "/z" = .error (.prefixMismatch "/a/b/c" "/x/y") := rfl
example : substRoots "/a" "/a/b" "/z" = .ok "/z" := rfl
example : substRoots "/a/b" "/a" "/" = .ok "/b" := rfl
example : substRoots "/b" "/" "/a" = .error (.prefixMismatch "/b" "/") := rfl
example : find_file_any_ext (fun d => if d == "/dir" then ["track.flac", "cover.jpg"] else []) "/dir/track" = .ok "/dir/track.flac" := rfl
example : find_file_any_ext (fun _ => ["b.flac"]) "/s/a" = .error (.noMatchingFile "/s/a") := rfl
example : find_source_file (fun _ => ["b.flac", "a.flac"]) "/d/a.mp3" "/s" "/d" = .ok "/s/a.flac" := rfl
example : mainPairs ["s", "d1", "s", "d2"] = [("s", "d2")] := rfl
example : copy_tags [("artist", ["Foo"]), ("encodedby", ["lame"])]
    [("artist", ["Bar"]), ("genre", ["Rock"])] (fun _ => true) (fun _ => true)
    = [("artist", ["Foo"])] := by decide

/-! ## Auxiliary lemmas on the Python dict model -/

theorem take_min_self {α : Type} (l : List α) (n : Nat) :
    l.take n = l.take (min n l.length) := by
  have h := List.take_take n l.length l
  rw [List.take_length] at h
  exact h

theorem find?_eq_head?_filter {α : Type} (p : α → Bool) :
    ∀ l : List α, l.find? p = (l.filter p).head?
  | [] => rfl
  | a :: t => by
    by_cases h : p a = true
    · rw [List.find?_cons_of_pos t h, List.filter_cons, if_pos h]
      rfl
    · rw [List.find?_cons_of_neg t h, List.filter_cons, if_neg h,
        find?_eq_head?_filter p t]

theorem keys_dictUpd {α : Type} (d : List (String × α)) (k : String) (v : α) :
    (dictUpd d k v).map Prod.fst
      = if d.any (fun p => p.1 == k) then d.map Prod.fst else d.map Prod.fst ++ [k] := by
  unfold dictUpd
  by_cases h : d.any (fun p => p.1 == k) = true
  · rw [if_pos h, if_pos h, List.map_map]
    refine List.map_congr_left ?_
    intro p _
    by_cases hp : (p.1 == k) = true
    · simp only [Function.comp_apply, if_pos hp]
      exact (beq_iff_eq.mp hp).symm
    · simp only [Function.comp_apply, if_neg hp]
  · rw [if_neg h, if_neg h, List.map_append]
    rfl

theorem alookup_eq_none_iff {α : Type} (l : List (String × α)) (k : String) :
    alookup l k = none ↔ k ∉ l.map Prod.fst := by
  unfold alookup
  constructor
  · intro h hk
    rcases List.mem_map.mp hk with ⟨p, hp, hfst⟩
    rcases hf : l.find? (fun p => p.1 == k) with _ | q
    · rw [List.find?_eq_none] at hf
      exact hf p hp (beq_iff_eq.mpr hfst)
    · rw [hf] at h
      exact Option.noConfusion h
  · intro hk
    rcases hf : l.find? (fun p => p.1 == k) with _ | q
    · rw [hf]
      rfl
    · exfalso
      apply hk
      have hq := List.find?_some hf
      have hmem := List.mem_of_find?_eq_some hf
      exact List.mem_map.mpr ⟨q, hmem, beq_iff_eq.mp hq⟩

theorem alookup_append {α : Type} (l₁ l₂ : List (String × α)) (k : String) :
    alookup (l₁ ++ l₂) k = (alookup l₁ k).or (alookup l₂ k) := by
  unfold alookup
  rw [List.find?_append]
  rcases hf : l₁.find? (fun p => p.1 == k) with _ | q <;> rw [hf] <;> rfl

theorem any_key_eq_false_not_mem {α : Type} {d : List (String × α)} {a : String}
    (h : d.any (fun p => p.1 == a) = false) : a ∉ d.map Prod.fst := by
  intro hmem
  rcases List.mem_map.mp hmem with ⟨p, hp, hfst⟩
  exact (List.any_eq_false.mp h p hp) (beq_iff_eq.mpr hfst)

theorem alookup_cons {α : Type} (q : String × α) (t : List (String × α)) (k : String) :
    alookup (q :: t) k = if q.1 = k then some q.2 else alookup t k := by
  unfold alookup
  by_cases h : q.1 = k
  · rw [@List.find?_cons_of_pos _ (fun p => p.1 == k) q t (beq_iff_eq.mpr h), if_pos h]
    rfl
  · rw [@List.find?_cons_of_neg _ (fun p => p.1 == k) q t
      (show ¬ (q.1 == k) = true by rw [beq_eq_false_iff_ne.mpr h]; exact Bool.false_ne_true),
      if_neg h]

theorem alookup_map_replace {α : Type} (d : List (String × α)) (a : String) (v : α) (k : String) :
    alookup (d.map (fun p => if p.1 == a then (a, v) else p)) k
      = if a = k ∧ a ∈ d.map Prod.fst then some v else alookup d k := by
  induction d with
  | nil =>
    simp only [List.map_nil, List.not_mem_nil, and_false, if_false]
  | cons q t ih =>
    rw [List.map_cons]
    by_cases hq : (q.1 == a) = true
    · have hqa : q.1 = a := beq_iff_eq.mp hq
      rw [if_pos hq, alookup_cons, alookup_cons]
      by_cases hak : a = k
      · have hmem : a ∈ (q :: t).map Prod.fst := by
          rw [List.map_cons, hqa]
          exact List.mem_cons_self a _
        rw [if_pos hak, if_pos ⟨hak, hmem⟩]
      · rw [if_neg hak, if_neg (fun hc => hak hc.1), if_neg (fun hc : q.1 = k => hak (hqa ▸ hc)),
          ih, if_neg (fun hc => hak hc.1)]
    · have hqa : ¬ q.1 = a := fun hc => hq (beq_iff_eq.mpr hc)
      rw [if_neg hq, alookup_cons]
      by_cases hqk : q.1 = k
      · rw [if_pos hqk, alookup_cons, if_pos hqk,
          if_neg (fun hc : a = k ∧ _ => hqa (by rw [hqk, hc.1]))]
      · rw [if_neg hqk, alookup_cons, if_neg hqk, ih]
        have hmemiff : (a = k ∧ a ∈ (q :: t).map Prod.fst) ↔ (a = k ∧ a ∈ t.map Prod.fst) := by
          constructor
          · rintro ⟨h1, h2⟩
            rw [List.map_cons] at h2
            rcases List.mem_cons.mp h2 with hc | hc
            · exact absurd hc.symm hqa
            · exact ⟨h1, hc⟩
          · rintro ⟨h1, h2⟩
            exact ⟨h1, by rw [List.map_cons]; exact List.mem_cons_of_mem _ h2⟩
        by_cases hcond : a = k ∧ a ∈ t.map Prod.fst
        · rw [if_pos hcond, if_pos (hmemiff.mpr hcond)]
        · rw [if_neg hcond, if_neg (fun hc => hcond (hmemiff.mp hc))]

theorem alookup_dictUpd {α : Type} (d : List (String × α)) (a : String) (v : α) (k : String) :
    alookup (dictUpd d a v) k = if a = k then some v else alookup d k := by
  unfold dictUpd
  by_cases h : d.any (fun p => p.1 == a) = true
  · rw [if_pos h, alookup_map_replace]
    have hmem : a ∈ d.map Prod.fst := by
      rcases List.any_eq_true.mp h with ⟨p, hp, hpk⟩
      exact List.mem_map.mpr ⟨p, hp, beq_iff_eq.mp hpk⟩
    by_cases hak : a = k
    · rw [if_pos ⟨hak, hmem⟩, if_pos hak]
    · rw [if_neg (fun hc => hak hc.1), if_neg hak]
  · rw [if_neg h, alookup_append]
    have hnone : alookup d a = none :=
      (alookup_eq_none_iff d a).mpr (any_key_eq_false_not_mem (Bool.eq_false_iff.mpr h))
    by_cases hak : a = k
    · subst hak
      rw [hnone, alookup_cons]
      simp
    · rw [alookup_cons]
      simp [hak, alookup]

theorem mem_keys_dictUpd {α : Type} (d : List (String × α)) (a : String) (v : α) (k : String) :
    k ∈ (dictUpd d a v).map Prod.fst ↔ (k ∈ d.map Prod.fst ∨ k = a) := by
  rw [keys_dictUpd]
  by_cases h : d.any (fun p => p.1 == a) = true
  · rw [if_pos h]
    have hmem : a ∈ d.map Prod.fst := by
      rcases List.any_eq_true.mp h with ⟨p, hp, hpk⟩
      exact List.mem_map.mpr ⟨p, hp, beq_iff_eq.mp hpk⟩
    constructor
    · exact Or.inl
    · rintro (hk | rfl)
      · exact hk
      · exact hmem
  · rw [if_neg h, List.mem_append, List.mem_singleton]

theorem keys_nodup_foldl_dictUpd {α : Type} :
    ∀ (l d : List (String × α)), (d.map Prod.fst).Nodup →
      ((l.foldl (fun d p => dictUpd d p.1 p.2) d).map Prod.fst).Nodup
  | [], _, h => h
  | p :: t, d, h => by
    rw [List.foldl_cons]
    apply keys_nodup_foldl_dictUpd t
    rw [keys_dictUpd]
    by_cases ha : d.any (fun q => q.1 == p.1) = true
    · rw [if_pos ha]
      exact h
    · rw [if_neg ha, List.nodup_append]
      refine ⟨h, List.nodup_singleton _, ?_⟩
      intro x hx hx1
      rw [List.mem_singleton] at hx1
      subst hx1
      exact any_key_eq_false_not_mem (Bool.eq_false_iff.mpr ha) hx

theorem mem_keys_foldl_dictUpd {α : Type} :
    ∀ (l d : List (String × α)) (k : String),
      k ∈ (l.foldl (fun d p => dictUpd d p.1 p.2) d).map Prod.fst ↔
        (k ∈ d.map Prod.fst ∨ k ∈ l.map Prod.fst)
  | [], d, k => by simp
  | p :: t, d, k => by
    rw [List.foldl_cons, mem_keys_foldl_dictUpd t _ k, mem_keys_dictUpd, List.map_cons,
      List.mem_cons]
    tauto

theorem alookup_foldl_dictUpd {α : Type} :
    ∀ (l d : List (String × α)) (k : String),
      alookup (l.foldl (fun d p => dictUpd d p.1 p.2) d) k
        = ((l.reverse.find? (fun p => p.1 == k)).map Prod.snd).or (alookup d k)
  | [], d, k => by simp
  | p :: t, d, k => by
    rw [List.foldl_cons, alookup_foldl_dictUpd t _ k, alookup_dictUpd, List.reverse_cons,
      List.find?_append]
    rcases hf : t.reverse.find? (fun p => p.1 == k) with _ | q
    · rw [hf]
      by_cases hpk : p.1 = k
      · rw [if_pos hpk,
          @List.find?_cons_of_pos _ (fun p => p.1 == k) p [] (beq_iff_eq.mpr hpk)]
        rfl
      · rw [if_neg hpk,
          @List.find?_cons_of_neg _ (fun p => p.1 == k) p []
            (show ¬ (p.1 == k) = true by
              rw [beq_eq_false_iff_ne.mpr hpk]; exact Bool.false_ne_true)]
        rfl
    · rw [hf]
      rfl

theorem keys_pyDict_nodup {α : Type} (l : List (String × α)) :
    ((pyDict l).map Prod.fst).Nodup :=
  keys_nodup_foldl_dictUpd l [] (by simp)

theorem mem_keys_pyDict {α : Type} (l : List (String × α)) (k : String) :
    k ∈ (pyDict l).map Prod.fst ↔ k ∈ l.map Prod.fst := by
  unfold pyDict
  rw [mem_keys_foldl_dictUpd]
  simp

theorem alookup_pyDict {α : Type} (l : List (String × α)) (k : String) :
    alookup (pyDict l) k = (l.reverse.find? (fun p => p.1 == k)).map Prod.snd := by
  unfold pyDict
  rw [alookup_foldl_dictUpd,
    show alookup ([] : List (String × α)) k = none from rfl, Option.or_none]

theorem filter_key_eq_nil_of_not_mem {α : Type} {t : List (String × α)} {k : String}
    (h : k ∉ t.map Prod.fst) : t.filter (fun p => p.1 == k) = [] := by
  rw [List.filter_eq_nil_iff]
  intro p hp hpk
  exact h (List.mem_map.mpr ⟨p, hp, beq_iff_eq.mp hpk⟩)

theorem length_filter_key_le_one {α : Type} :
    ∀ (L : List (String × α)) (k : String), (L.map Prod.fst).Nodup →
      (L.filter (fun p => p.1 == k)).length ≤ 1
  | [], _, _ => by simp
  | q :: t, k, h => by
    rw [List.map_cons, List.nodup_cons] at h
    rw [List.filter_cons]
    by_cases hq : (q.1 == k) = true
    · rw [if_pos hq]
      have : t.filter (fun p => p.1 == k) = [] := by
        apply filter_key_eq_nil_of_not_mem
        rw [← beq_iff_eq.mp hq]
        exact h.1
      rw [this]
      exact Nat.le_refl 1
    · rw [if_neg hq]
      exact length_filter_key_le_one t k h.2

/-! ## C10: CLI argument pairing -/

/-- C10 (confirmed): the `__main__` block builds its work list as
`dict(zip(sys.argv[1::2], sys.argv[2::2]))`, keyed on the source argument.
Hence (1) each distinct source is processed at most once, (2) the destination
used for a source is the one of the LAST (source, destination) pair on the
command line — earlier pairs with the same source are silently dropped — and
(3) concretely, arguments `s d1 s d2` produce a single copy, fewer than half
the argument count. -/
theorem c10_duplicate_source_last_pair_wins :
    (∀ args s, ((mainPairs args).filter (fun p => p.1 == s)).length ≤ 1) ∧
    (∀ args s, alookup (mainPairs args) s
        = ((pairedArgs args).reverse.find? (fun p => p.1 == s)).map Prod.snd) ∧
    mainPairs ["s", "d1", "s", "d2"] = [("s", "d2")] ∧
    2 * (mainPairs ["s", "d1", "s", "d2"]).length < (["s", "d1", "s", "d2"] : List String).length := by
  refine ⟨?_, ?_, rfl, by decide⟩
  · intro args s
    exact length_filter_key_le_one _ _ (keys_pyDict_nodup _)
  · intro args s
    exact alookup_pyDict _ _

/-! ## C5: blacklisted keys are invisible -/

/-- C5 (confirmed): for every adapter built by the `AudioFile` constructor,
the blacklist always contains the internal `'^~'` rule (first conjunct), and
any key matched by some blacklist pattern never appears in `keys()` (hence
not in iteration, which is `iter(keys())`), `get` returns nothing for it, and
`set`/`delete` leave the underlying tag dictionary unchanged. -/
theorem c5_blacklisted_keys_inaccessible (data : TagData) (sup : String → Bool)
    (bl : List TagPat) (k : String) (v : TagVal) :
    ("~".data.isPrefixOf k.data = true → (mkAudioFile data sup bl).blacklisted k = true) ∧
    ((mkAudioFile data sup bl).blacklisted k = true →
      k ∉ (mkAudioFile data sup bl).keys ∧
      (mkAudioFile data sup bl).getItem k = none ∧
      ((mkAudioFile data sup bl).setItem k v).data = data ∧
      ((mkAudioFile data sup bl).delItem k).data = data) := by
  constructor
  · intro h
    unfold mkAudioFile AudioFile.blacklisted
    rw [List.any_cons, Bool.or_eq_true]
    exact Or.inl h
  · intro h
    refine ⟨?_, ?_, ?_, ?_⟩
    · intro hk
      have := (List.mem_filter.mp hk).2
      rw [h] at this
      rw [Bool.not_true] at this
      exact Bool.false_ne_true this
    · unfold AudioFile.getItem
      rw [if_pos h]
    · unfold AudioFile.setItem
      rw [if_pos h]
      rfl
    · unfold AudioFile.delItem
      rw [if_pos h]
      rfl

/-- Witness for C5 at concrete inputs: a tilde key is blacklisted by
construction, and the blacklisted key `"encodedby"` (matched by the
`'encoded'` substring rule) is invisible and unwritable. -/
theorem c5_witness :
    (mkAudioFile [("artist", ["Foo"])] (fun _ => true) blacklist_regexes).blacklisted
        "~internal" = true ∧
    ("encodedby" ∉ (mkAudioFile [("artist", ["Foo"]), ("encodedby", ["lame"])]
        (fun _ => true) blacklist_regexes).keys ∧
      (mkAudioFile [("artist", ["Foo"]), ("encodedby", ["lame"])]
        (fun _ => true) blacklist_regexes).getItem "encodedby" = none ∧
      ((mkAudioFile [("artist", ["Foo"]), ("encodedby", ["lame"])]
        (fun _ => true) blacklist_regexes).setItem "encodedby" ["x"]).data
          = [("artist", ["Foo"]), ("encodedby", ["lame"])] ∧
      ((mkAudioFile [("artist", ["Foo"]), ("encodedby", ["lame"])]
        (fun _ => true) blacklist_regexes).delItem "encodedby").data
          = [("artist", ["Foo"]), ("encodedby", ["lame"])]) :=
  ⟨(c5_blacklisted_keys_inaccessible [("artist", ["Foo"])] (fun _ => true)
      blacklist_regexes "~internal" []).1 (by decide),
   (c5_blacklisted_keys_inaccessible [("artist", ["Foo"]), ("encodedby", ["lame"])]
      (fun _ => true) blacklist_regexes "encodedby" ["x"]).2 (by decide)⟩

/-! ## C9: find_file_any_ext ignores entry kinds -/

/-- C9 (confirmed): `find_file_any_ext` works on the bare names returned by
`os.listdir` and never checks whether the matched entry is a regular file.
In a directory containing a SUBDIRECTORY named `"track"` and an audio file
`"track.flac"`, the subdirectory sorts first and its path is returned instead
of the audio file's. -/
theorem c9_returns_subdirectory_path :
    [Dirent.file "track.flac", Dirent.dir "track" []].map direntName
        = ["track.flac", "track"] ∧
    find_file_any_ext
        (fun d => if d == "/dir"
          then [Dirent.file "track.flac", Dirent.dir "track" []].map direntName
          else []) "/dir/track"
      = .ok "/dir/track" ∧
    splitextBaseStr "track.flac" = basenameStr "/dir/track" :=
  ⟨rfl, rfl, rfl⟩

/-! ## C3: when substitute_prefix fails -/

theorem zip_all_beq_iff :
    ∀ (A B : List (List Char)),
      ((A.zip B).all (fun ab => ab.1 == ab.2)) = true ↔ A.take B.length = B.take A.length
  | [], B => by simp
  | a :: as, [] => by simp
  | a :: as, b :: bs => by
    rw [List.zip_cons_cons, List.all_cons, Bool.and_eq_true, zip_all_beq_iff as bs]
    rw [List.length_cons, List.length_cons, List.take_succ_cons, List.take_succ_cons,
      List.cons_eq_cons]
    constructor
    · rintro ⟨h1, h2⟩
      exact ⟨beq_iff_eq.mp h1, h2⟩
    · rintro ⟨h1, h2⟩
      exact ⟨beq_iff_eq.mpr h1, h2⟩

theorem zip_all_take_iff (P O : List (List Char)) :
    ((O.zip (P.take O.length)).all (fun ab => ab.1 == ab.2)) = true ↔
      P.take (min P.length O.length) = O.take (min P.length O.length) := by
  rw [zip_all_beq_iff, List.length_take, List.take_take, Nat.min_self, Nat.min_comm,
    take_min_self P O.length, Nat.min_comm O.length]
  exact eq_comm

/-- C3 (corrected): `substitute_prefix` raises its `PrefixMismatch` error iff
some component among the first `min |path| |oldRoot|` NORMALIZED components
differs — the check is `zip(old_components, path_components[:len(old)])` and
Python's `zip` truncates to the shorter list.  Consequently, when `path` has
FEWER components than `oldRoot` and they are an initial run of `oldRoot`'s
components, the function does NOT fail (it returns a `newRoot`-based path);
the original claim's "including the case where path has fewer segments than
oldRoot" is refuted by `c3_counterexample_shorter_path_succeeds`. -/
theorem c3_prefix_mismatch_iff (path oldp newp : String) :
    (∃ e, substRoots path oldp newp = .error e) ↔
      ¬ (pySegs path).take (min (pySegs path).length (pySegs oldp).length)
          = (pySegs oldp).take (min (pySegs path).length (pySegs oldp).length) := by
  have hcond := zip_all_take_iff (pySegs path) (pySegs oldp)
  unfold pySegs at hcond
  simp only [substRoots, substRootsC]
  by_cases h : ((splitSep '/' (normpathC oldp.data)).zip
      ((splitSep '/' (normpathC path.data)).take
        (splitSep '/' (normpathC oldp.data)).length)).all (fun ab => ab.1 == ab.2) = true
  · rw [if_pos h]
    have hx := hcond.mp h
    unfold pySegs
    constructor
    · rintro ⟨e, he⟩
      exact absurd he (by simp [Except.map])
    · intro hne
      exact absurd hx hne
  · rw [if_neg h]
    unfold pySegs
    constructor
    · intro _ heq
      exact h (hcond.mpr heq)
    · intro _
      exact ⟨.prefixMismatch path oldp, by simp [Except.map]⟩

/-- C3 counterexample: the claim asserts `substitute_prefix` fails whenever
path's segments do not begin with ALL of oldRoot's segments, "including the
case where path has fewer segments than oldRoot"; but
`substitute_prefix("/a", "/a/b", "/z")` succeeds and returns `"/z"`. -/
theorem c3_counterexample_shorter_path_succeeds :
    substRoots "/a" "/a/b" "/z" = .ok "/z" ∧
    (pySegs "/a").length < (pySegs "/a/b").length :=
  ⟨rfl, by decide⟩

/-- Witness for the corrected C3: a genuinely mismatching pair fails, and the
shorter-path pair does not. -/
theorem c3_witness :
    (∃ e, substRoots "/a/b/c" "/x/y" "/z" = .error e) ∧
    ¬ (∃ e, substRoots "/a" "/a/b" "/z" = .error e) :=
  ⟨(c3_prefix_mismatch_iff "/a/b/c" "/x/y" "/z").mpr (by decide),
   fun hc => absurd ((c3_prefix_mismatch_iff "/a" "/a/b" "/z").mp hc) (by decide)⟩

/-! ## C7: find_file_any_ext returns the first sorted basename match -/

theorem strLtC_trans : ∀ a b c : List Char, strLtC a b = true → strLtC b c = true →
    strLtC a c = true
  | [], [], _, h1, _ => by simp [strLtC] at h1
  | [], _ :: _, [], _, h2 => by simp [strLtC] at h2
  | [], _ :: _, _ :: _, _, _ => by simp [strLtC]
  | _ :: _, [], _, h1, _ => by simp [strLtC] at h1
  | _ :: _, _ :: _, [], _, h2 => by simp [strLtC] at h2
  | a :: as, b :: bs, c :: cs, h1, h2 => by
    unfold strLtC at h1 h2 ⊢
    by_cases hab : a = b
    · subst hab
      rw [if_pos rfl] at h1
      by_cases hac : a = c
      · subst hac
        rw [if_pos rfl] at h2 ⊢
        exact strLtC_trans as bs cs h1 h2
      · rw [if_neg hac] at h2 ⊢
        exact h2
    · rw [if_neg hab] at h1
      have hab2 : a.val < b.val := of_decide_eq_true h1
      by_cases hbc : b = c
      · have hac : ¬ a = c := fun he => hab (he.trans hbc.symm)
        rw [if_neg hac]
        refine decide_eq_true ?_
        rw [← hbc]
        exact hab2
      · rw [if_neg hbc] at h2
        have hbc2 : b.val < c.val := of_decide_eq_true h2
        have hac2 : a.val < c.val := by
          rw [UInt32.lt_def, BitVec.lt_def] at hab2 hbc2 ⊢
          exact Nat.lt_trans hab2 hbc2
        have hac : ¬ a = c := by
          intro he
          rw [he] at hac2
          rw [UInt32.lt_def, BitVec.lt_def] at hac2
          exact Nat.lt_irrefl _ hac2
        rw [if_neg hac]
        exact decide_eq_true hac2

theorem strLtC_connex : ∀ a b : List Char, strLtC a b = true ∨ a = b ∨ strLtC b a = true
  | [], [] => Or.inr (Or.inl rfl)
  | [], _ :: _ => Or.inl (by simp [strLtC])
  | _ :: _, [] => Or.inr (Or.inr (by simp [strLtC]))
  | a :: as, b :: bs => by
    by_cases hab : a = b
    · subst hab
      rcases strLtC_connex as bs with h | h | h
      · refine Or.inl ?_
        unfold strLtC
        rw [if_pos rfl]
        exact h
      · exact Or.inr (Or.inl (by rw [h]))
      · refine Or.inr (Or.inr ?_)
        unfold strLtC
        rw [if_pos rfl]
        exact h
    · have hval : ¬ a.val = b.val := fun he => hab (Char.ext he)
      rcases Nat.lt_trichotomy a.val.toNat b.val.toNat with hn | hn | hn
      · refine Or.inl ?_
        unfold strLtC
        rw [if_neg hab]
        refine decide_eq_true ?_
        rw [UInt32.lt_def, BitVec.lt_def]
        exact hn
      · exact absurd (UInt32.ext hn) hval
      · refine Or.inr (Or.inr ?_)
        unfold strLtC
        rw [if_neg (fun he => hab he.symm)]
        refine decide_eq_true ?_
        rw [UInt32.lt_def, BitVec.lt_def]
        exact hn

theorem pyStrLe_refl (a : String) : pyStrLe a a = true := by
  unfold pyStrLe
  rw [Bool.or_eq_true]
  right
  exact beq_self_eq_true a

theorem pyStrLe_trans : ∀ a b c : String, pyStrLe a b = true → pyStrLe b c = true →
    pyStrLe a c = true := by
  intro a b c h1 h2
  unfold pyStrLe at h1 h2 ⊢
  rw [Bool.or_eq_true] at h1 h2 ⊢
  rcases h1 with h1 | h1
  · rcases h2 with h2 | h2
    · exact Or.inl (strLtC_trans _ _ _ h1 h2)
    · have hbc : b = c := beq_iff_eq.mp h2
      subst hbc
      exact Or.inl h1
  · have hab : a = b := beq_iff_eq.mp h1
    subst hab
    exact h2

theorem pyStrLe_total : ∀ a b : String, pyStrLe a b = true ∨ pyStrLe b a = true := by
  intro a b
  rcases strLtC_connex a.data b.data with h | h | h
  · left
    unfold pyStrLe
    rw [Bool.or_eq_true]
    exact Or.inl h
  · left
    unfold pyStrLe
    rw [Bool.or_eq_true]
    right
    rw [beq_iff_eq]
    exact congrArg String.mk h
  · right
    unfold pyStrLe
    rw [Bool.or_eq_true]
    exact Or.inl h

/-- C7 (confirmed): `find_file_any_ext` sorts the listing of the directory
containing the target and returns the join of the directory with the FIRST
entry of the sorted listing whose name-without-extension equals the target's
basename; it fails with the no-matching-file error iff no entry of the
listing matches (first conjunct).  When exactly one entry matches, that
entry's path is returned (second conjunct).  Third conjunct, the multi-match
tie-break: whenever ANY entry matches, the returned path is the join with a
matching entry `m` that precedes every matching entry in Python's string
order — i.e. the first match in lexicographic (sorted) order. -/
theorem c7_first_sorted_basename_match (listdir : String → List String) (path : String) :
    (find_file_any_ext listdir path = .error (.noMatchingFile path) ↔
      ∀ f ∈ listdir (dirnameStr path), ¬ splitextBaseStr f = basenameStr path) ∧
    (∀ f, (listdir (dirnameStr path)).filter
        (fun p => splitextBaseStr p == basenameStr path) = [f] →
      find_file_any_ext listdir path = .ok (pyJoin2S (dirnameStr path) f)) ∧
    (∀ f ∈ listdir (dirnameStr path), splitextBaseStr f = basenameStr path →
      ∃ m, m ∈ listdir (dirnameStr path) ∧ splitextBaseStr m = basenameStr path ∧
        (∀ x ∈ listdir (dirnameStr path), splitextBaseStr x = basenameStr path →
          pyStrLe m x = true) ∧
        find_file_any_ext listdir path = .ok (pyJoin2S (dirnameStr path) m)) := by
  have hperm : (pySorted (listdir (dirnameStr path))).Perm (listdir (dirnameStr path)) :=
    List.perm_insertionSort _ _
  have hdef : find_file_any_ext listdir path
      = match (pySorted (listdir (dirnameStr path))).find?
          (fun p => splitextBaseStr p == basenameStr path) with
        | some f => .ok (pyJoin2S (dirnameStr path) f)
        | none => .error (.noMatchingFile path) := rfl
  refine ⟨?_, ?_, ?_⟩
  · rw [hdef]
    rcases hf : (pySorted (listdir (dirnameStr path))).find?
        (fun p => splitextBaseStr p == basenameStr path) with _ | g
    · rw [List.find?_eq_none] at hf
      constructor
      · intro _ f hfmem hfbase
        exact hf f (hperm.mem_iff.mpr hfmem) (beq_iff_eq.mpr hfbase)
      · intro _
        rfl
    · constructor
      · intro he
        exact absurd he (by simp)
      · intro hall
        exfalso
        have hg := List.find?_some hf
        have hgm := List.mem_of_find?_eq_some hf
        exact hall g (hperm.mem_iff.mp hgm) (beq_iff_eq.mp hg)
  · intro f hfilter
    have hpermf := hperm.filter (fun p => splitextBaseStr p == basenameStr path)
    rw [hfilter] at hpermf
    have hsf : (pySorted (listdir (dirnameStr path))).filter
        (fun p => splitextBaseStr p == basenameStr path) = [f] :=
      List.perm_singleton.mp hpermf
    rw [hdef, find?_eq_head?_filter, hsf]
    rfl
  · intro f hfmem hfmatch
    haveI : IsTotal String (fun a b => pyStrLe a b = true) := ⟨pyStrLe_total⟩
    haveI : IsTrans String (fun a b => pyStrLe a b = true) :=
      ⟨fun a b c => pyStrLe_trans a b c⟩
    have hS : List.Sorted (fun a b => pyStrLe a b = true)
        (pySorted (listdir (dirnameStr path))) :=
      List.sorted_insertionSort _ _
    have hfS : List.Sorted (fun a b => pyStrLe a b = true)
        ((pySorted (listdir (dirnameStr path))).filter
          (fun p => splitextBaseStr p == basenameStr path)) :=
      List.Pairwise.sublist (List.filter_sublist _) hS
    have hfsorted : f ∈ (pySorted (listdir (dirnameStr path))).filter
        (fun p => splitextBaseStr p == basenameStr path) :=
      List.mem_filter.mpr ⟨hperm.mem_iff.mpr hfmem, beq_iff_eq.mpr hfmatch⟩
    rcases hflt : (pySorted (listdir (dirnameStr path))).filter
        (fun p => splitextBaseStr p == basenameStr path) with _ | ⟨m, rest⟩
    · rw [hflt] at hfsorted
      exact absurd hfsorted (List.not_mem_nil f)
    · have hmfil : m ∈ (pySorted (listdir (dirnameStr path))).filter
          (fun p => splitextBaseStr p == basenameStr path) := by
        rw [hflt]
        exact List.mem_cons_self m rest
      refine ⟨m, hperm.mem_iff.mp (List.mem_filter.mp hmfil).1,
        beq_iff_eq.mp (List.mem_filter.mp hmfil).2, ?_, ?_⟩
      · intro x hxmem hxmatch
        have hxf : x ∈ (pySorted (listdir (dirnameStr path))).filter
            (fun p => splitextBaseStr p == basenameStr path) :=
          List.mem_filter.mpr ⟨hperm.mem_iff.mpr hxmem, beq_iff_eq.mpr hxmatch⟩
        rw [hflt] at hxf
        rcases List.mem_cons.mp hxf with rfl | hxr
        · exact pyStrLe_refl x
        · rw [hflt] at hfS
          exact (List.sorted_cons.mp hfS).1 x hxr
      · rw [hdef, find?_eq_head?_filter, hflt]
        rfl

/-- Witness for C7 at concrete inputs.  First: the only matching entry in the
listing of `"/dir"` is `"track.flac"` and it is returned.  Second: with TWO
matching entries `"track.m4a"` and `"track.flac"`, the theorem yields a
returned match that precedes both in Python's string order (the sorted-first
one, `"track.flac"`). -/
theorem c7_witness :
    find_file_any_ext
        (fun d => if d == "/dir" then ["track.flac", "cover.jpg"] else []) "/dir/track"
      = .ok "/dir/track.flac" ∧
    (∃ m, m ∈ (if ("/dir" : String) == "/dir" then ["track.m4a", "track.flac"] else []) ∧
      splitextBaseStr m = basenameStr "/dir/track" ∧
      (∀ x ∈ (if ("/dir" : String) == "/dir" then ["track.m4a", "track.flac"] else []),
        splitextBaseStr x = basenameStr "/dir/track" → pyStrLe m x = true) ∧
      find_file_any_ext
        (fun d => if d == "/dir" then ["track.m4a", "track.flac"] else []) "/dir/track"
      = .ok (pyJoin2S "/dir" m)) :=
  ⟨(c7_first_sorted_basename_match
      (fun d => if d == "/dir" then ["track.flac", "cover.jpg"] else []) "/dir/track").2.1
    "track.flac" (by decide),
   (c7_first_sorted_basename_match
      (fun d => if d == "/dir" then ["track.m4a", "track.flac"] else []) "/dir/track").2.2
    "track.flac" (by decide) (by decide)⟩
/-! ## C8: deduplication is by filename string, not by canonical path -/

theorem foldl_dictUpd_pair_self :
    ∀ (l d : List (String × String)),
      (∀ p ∈ l, p.2 = p.1) → (∀ q ∈ d, q.2 = q.1) →
      ∀ q ∈ l.foldl (fun d p => dictUpd d p.1 p.2) d, q.2 = q.1
  | [], _, _, hd, q, hq => hd q hq
  | p :: t, d, hl, hd, q, hq => by
    rw [List.foldl_cons] at hq
    refine foldl_dictUpd_pair_self t _ (fun r hr => hl r (List.mem_cons_of_mem _ hr)) ?_ q hq
    intro r hr
    unfold dictUpd at hr
    by_cases h : d.any (fun x => x.1 == p.1) = true
    · rw [if_pos h] at hr
      rcases List.mem_map.mp hr with ⟨x, hx, hfx⟩
      by_cases hxk : (x.1 == p.1) = true
      · rw [if_pos hxk] at hfx
        rw [← hfx]
        exact hl p (List.mem_cons_self _ _)
      · rw [if_neg hxk] at hfx
        rw [← hfx]
        exact hd x hx
    · rw [if_neg h] at hr
      rcases List.mem_append.mp hr with hr | hr
      · exact hd r hr
      · rw [List.mem_singleton] at hr
        subst hr
        exact hl p (List.mem_cons_self _ _)

theorem pyDict_pair_self (l : List String) :
    ∀ q ∈ pyDict (l.map fun s => (s, s)), q.2 = q.1 :=
  foldl_dictUpd_pair_self _ []
    (by
      intro p hp
      rcases List.mem_map.mp hp with ⟨s, _, rfl⟩
      rfl)
    (by simp)

theorem unique_id_nodup (l : List String) : (unique (fun s => s) l).Nodup := by
  unfold unique
  rw [List.map_congr_left (pyDict_pair_self l)]
  exact keys_pyDict_nodup _

theorem mem_unique_id (l : List String) (p : String) :
    p ∈ unique (fun s => s) l ↔ p ∈ l := by
  unfold unique
  rw [List.map_congr_left (pyDict_pair_self l), mem_keys_pyDict]
  simp

/-- C8 (corrected, positive part): the enumerator deduplicates by the handle's
`filename` attribute — the path STRING built during the walk — so the final
list contains each filename exactly once (it is duplicate-free), and it
contains exactly the filenames produced by the walk.  It does NOT key on a
canonical resolved path; see `c8_counterexample_two_handles_same_canonical`. -/
theorem c8_dedup_is_by_filename_string (isAudio : String → Bool) (root : String)
    (entries : List Dirent) (ih : Bool) :
    (get_all_music_files isAudio root entries ih).Nodup ∧
    (∀ p, p ∈ get_all_music_files isAudio root entries ih ↔
      p ∈ walk isAudio ih root entries) := by
  unfold get_all_music_files
  have hperm : (pySorted (unique (fun s => s) (walk isAudio ih root entries))).Perm
      (unique (fun s => s) (walk isAudio ih root entries)) := List.perm_insertionSort _ _
  exact ⟨hperm.nodup_iff.mpr (unique_id_nodup _),
    fun p => (hperm.mem_iff).trans (mem_unique_id _ p)⟩

/-- C8 counterexample: with a directory symlink `/top/link` pointing at
`/top/real` (walked because `followlinks=True`), the same physical file is
enumerated under two different traversal paths that resolve to the SAME
canonical path `/top/real/a.mp3`, yet BOTH handles appear in the returned
list: deduplication is not by resolved absolute path. -/
theorem c8_counterexample_two_handles_same_canonical :
    get_all_music_files (fun _ => true) "/top"
        [Dirent.dir "real" [Dirent.file "a.mp3"],
         Dirent.dirlink "link" "/top/real" [Dirent.file "a.mp3"]]
      = ["/top/link/a.mp3", "/top/real/a.mp3"] ∧
    ("/top/real/a.mp3", "/top/real/a.mp3") ∈ canonicalWalk (fun _ => true) true "/top"
        [Dirent.dir "real" [Dirent.file "a.mp3"],
         Dirent.dirlink "link" "/top/real" [Dirent.file "a.mp3"]] ∧
    ("/top/link/a.mp3", "/top/real/a.mp3") ∈ canonicalWalk (fun _ => true) true "/top"
        [Dirent.dir "real" [Dirent.file "a.mp3"],
         Dirent.dirlink "link" "/top/real" [Dirent.file "a.mp3"]] ∧
    "/top/link/a.mp3" ≠ "/top/real/a.mp3" := by
  have hw : walk (fun _ => true) true "/top"
      [Dirent.dir "real" [Dirent.file "a.mp3"],
       Dirent.dirlink "link" "/top/real" [Dirent.file "a.mp3"]]
      = ["/top/real/a.mp3", "/top/link/a.mp3"] := by
    simp [walk, walkSubs, loadLevel, fileNames, remove_hidden_paths, startsDot, pyJoin2S,
      pyJoin2C]
  have hc : canonicalWalk (fun _ => true) true "/top"
      [Dirent.dir "real" [Dirent.file "a.mp3"],
       Dirent.dirlink "link" "/top/real" [Dirent.file "a.mp3"]]
      = [("/top/real/a.mp3", "/top/real/a.mp3"), ("/top/link/a.mp3", "/top/real/a.mp3")] := by
    simp [canonicalWalk, canonicalSubs, canonicalSubs.canonicalLevel, fileNames,
      remove_hidden_paths, startsDot, pyJoin2S, pyJoin2C]
  refine ⟨?_, ?_, ?_, by decide⟩
  · unfold get_all_music_files
    rw [hw]
    decide
  · rw [hc]
    decide
  · rw [hc]
    decide

/-! ## C2: hidden directories are NOT pruned from the walk -/

/-- C2 (code bug): `get_all_music_files` executes
`dirs = remove_hidden_paths(dirs)`, which rebinds a local name instead of
mutating `os.walk`'s `dirs` list in place (`dirs[:] = ...` would be needed),
so the walk still descends into hidden directories and returns the audio
files found inside them — here `/top/.hidden/song.mp3` — contradicting the
function's own docstring ("hidden files and directories are ignored") and the
claim.  The file-name filter does work: a hidden FILE at a visited level
(third conjunct) is excluded. -/
theorem c2_hidden_directory_descended :
    get_all_music_files (fun _ => true) "/top" [Dirent.dir ".hidden" [Dirent.file "song.mp3"]]
      = ["/top/.hidden/song.mp3"] ∧
    startsDot ".hidden" = true ∧
    get_all_music_files (fun _ => true) "/top" [Dirent.file ".song.mp3"] = [] := by
  have hw1 : walk (fun _ => true) true "/top" [Dirent.dir ".hidden" [Dirent.file "song.mp3"]]
      = ["/top/.hidden/song.mp3"] := by
    simp [walk, walkSubs, loadLevel, fileNames, remove_hidden_paths, startsDot, pyJoin2S,
      pyJoin2C]
  have hw2 : walk (fun _ => true) true "/top" [Dirent.file ".song.mp3"] = [] := by
    simp [walk, walkSubs, loadLevel, fileNames, remove_hidden_paths, startsDot]
  refine ⟨?_, rfl, ?_⟩
  · unfold get_all_music_files
    rw [hw1]
    decide
  · unfold get_all_music_files
    rw [hw2]
    decide

/-! ## C1: a failed source resolution aborts the whole batch -/

theorem runPairs_ok_then_error :
    ∀ (good : List (String × String)) (e : PathErr)
      (post : List (Except PathErr (String × String))),
      runPairs (good.map Except.ok ++ Except.error e :: post) = (good, some e)
  | [], _, _ => rfl
  | p :: t, e, post => by
    rw [List.map_cons, List.cons_append]
    show (p :: (runPairs (t.map Except.ok ++ Except.error e :: post)).1,
      (runPairs (t.map Except.ok ++ Except.error e :: post)).2) = _
    rw [runPairs_ok_then_error t e post]

/-- C1 (corrected): the pair loop of `copy_tags_recursive` has NO per-item
exception handling — `find_file_pairs` is a generator and a resolution
failure raised while producing the next pair propagates out of the `for`
loop.  If the pair list consists of some successfully resolved pairs followed
by a failing one, exactly the pairs BEFORE the failure are copied and the run
aborts with that error; the remaining destination files are never processed.
The original claim (skip the bad pair, continue, finish successfully) is
refuted at a concrete input by `c1_counterexample_batch_aborts`. -/
theorem c1_first_failure_aborts_batch (isAudio : String → Bool)
    (listdir : String → List String) (realpath : String → String)
    (srcdir destdir : String) (destEntries : List Dirent)
    (good : List (String × String)) (e : PathErr)
    (post : List (Except PathErr (String × String)))
    (h : find_file_pairs isAudio listdir (realpath srcdir) (realpath destdir) destEntries
        = good.map Except.ok ++ Except.error e :: post) :
    copy_tags_recursive isAudio listdir realpath srcdir destdir destEntries = (good, some e) := by
  unfold copy_tags_recursive
  rw [h]
  exact runPairs_ok_then_error good e post

/-- C1 counterexample: destination `/d` holds `a.mp3` and `b.mp3`; the source
directory `/s` only holds `b.flac`.  Resolving the FIRST pair fails
(`NoMatchingFile` for `/s/a`), and although the second pair is perfectly
resolvable (second conjunct), the run aborts immediately: no pair is copied
and the run does not complete successfully — contradicting the claim that the
bad pair is skipped and processing continues. -/
theorem c1_counterexample_batch_aborts :
    copy_tags_recursive (fun _ => true) (fun d => if d == "/s" then ["b.flac"] else [])
        (fun p => p) "/s" "/d" [Dirent.file "a.mp3", Dirent.file "b.mp3"]
      = ([], some (.noMatchingFile "/s/a")) ∧
    find_source_file (fun d => if d == "/s" then ["b.flac"] else []) "/d/b.mp3" "/s" "/d"
      = .ok "/s/b.flac" := by
  have hw : get_all_music_files (fun _ => true) "/d" [Dirent.file "a.mp3", Dirent.file "b.mp3"]
      = ["/d/a.mp3", "/d/b.mp3"] := by
    have hwalk : walk (fun _ => true) true "/d" [Dirent.file "a.mp3", Dirent.file "b.mp3"]
        = ["/d/a.mp3", "/d/b.mp3"] := by
      simp [walk, walkSubs, loadLevel, fileNames, remove_hidden_paths, startsDot, pyJoin2S,
        pyJoin2C]
    unfold get_all_music_files
    rw [hwalk]
    decide
  constructor
  · unfold copy_tags_recursive find_file_pairs
    rw [show (fun p : String => p) "/d" = "/d" from rfl, show (fun p : String => p) "/s" = "/s" from rfl]
    rw [hw]
    rfl
  · rfl

/-- Witness for the corrected C1 at the same concrete input: the pair list is
an empty run of successes followed by the `NoMatchingFile` failure, and the
theorem yields the abort with no pair copied. -/
theorem c1_witness :
    copy_tags_recursive (fun _ => true) (fun d => if d == "/s" then ["b.flac"] else [])
        (fun p => p) "/s" "/d" [Dirent.file "a.mp3", Dirent.file "b.mp3"]
      = ([], some (.noMatchingFile "/s/a")) :=
  c1_first_failure_aborts_batch (fun _ => true)
    (fun d => if d == "/s" then ["b.flac"] else []) (fun p => p) "/s" "/d"
    [Dirent.file "a.mp3", Dirent.file "b.mp3"] [] (.noMatchingFile "/s/a")
    [Except.ok ("/s/b.flac", "/d/b.mp3")]
    (by
      have hw : get_all_music_files (fun _ => true) "/d"
          [Dirent.file "a.mp3", Dirent.file "b.mp3"] = ["/d/a.mp3", "/d/b.mp3"] := by
        have hwalk : walk (fun _ => true) true "/d" [Dirent.file "a.mp3", Dirent.file "b.mp3"]
            = ["/d/a.mp3", "/d/b.mp3"] := by
          simp [walk, walkSubs, loadLevel, fileNames, remove_hidden_paths, startsDot, pyJoin2S,
            pyJoin2C]
        unfold get_all_music_files
        rw [hwalk]
        decide
      unfold find_file_pairs
      rw [show (fun p : String => p) "/d" = "/d" from rfl,
        show (fun p : String => p) "/s" = "/s" from rfl]
      rw [hw]
      rfl)

/-! ## C6: copy_tags semantics -/

theorem setItem_blacklist (f : AudioFile) (k : String) (v : TagVal) :
    (f.setItem k v).blacklist = f.blacklist := by
  unfold AudioFile.setItem
  split
  · rfl
  · split <;> rfl

theorem setItem_supported (f : AudioFile) (k : String) (v : TagVal) :
    (f.setItem k v).supported = f.supported := by
  unfold AudioFile.setItem
  split
  · rfl
  · split <;> rfl

theorem setItem_blacklisted (f : AudioFile) (k : String) (v : TagVal) (x : String) :
    (f.setItem k v).blacklisted x = f.blacklisted x := by
  unfold AudioFile.blacklisted
  rw [setItem_blacklist]

theorem alookup_setItem_other (f : AudioFile) (k : String) (v : TagVal) (x : String)
    (h : ¬ k = x) : alookup (f.setItem k v).data x = alookup f.data x := by
  unfold AudioFile.setItem
  split
  · rfl
  · split
    · show alookup (dictUpd f.data k v) x = _
      rw [alookup_dictUpd, if_neg h]
    · rfl

theorem alookup_setItem_self (f : AudioFile) (k : String) (v : TagVal)
    (hb : f.blacklisted k = false) (hs : f.supported k = true) :
    alookup (f.setItem k v).data k = some v := by
  unfold AudioFile.setItem
  rw [if_neg (by rw [hb]; exact Bool.false_ne_true), if_pos hs]
  show alookup (dictUpd f.data k v) k = some v
  rw [alookup_dictUpd, if_pos rfl]

theorem alookup_filter_key_pos {α : Type} {q : String → Bool} :
    ∀ (l : List (String × α)) (k : String), q k = true →
      alookup (l.filter (fun p => q p.1)) k = alookup l k
  | [], _, _ => rfl
  | p :: t, k, hq => by
    rw [List.filter_cons]
    by_cases hp : q p.1 = true
    · rw [if_pos hp, alookup_cons, alookup_cons]
      by_cases hpk : p.1 = k
      · rw [if_pos hpk, if_pos hpk]
      · rw [if_neg hpk, if_neg hpk, alookup_filter_key_pos t k hq]
    · rw [if_neg hp, alookup_cons]
      have hpk : ¬ p.1 = k := fun hc => hp (by rw [hc]; exact hq)
      rw [if_neg hpk, alookup_filter_key_pos t k hq]

theorem alookup_filter_key_neg {α : Type} {q : String → Bool} :
    ∀ (l : List (String × α)) (k : String), q k = false →
      alookup (l.filter (fun p => q p.1)) k = none
  | [], _, _ => rfl
  | p :: t, k, hq => by
    rw [List.filter_cons]
    by_cases hp : q p.1 = true
    · rw [if_pos hp, alookup_cons]
      have hpk : ¬ p.1 = k := fun hc => by rw [hc, hq] at hp; exact Bool.false_ne_true hp
      rw [if_neg hpk]
      exact alookup_filter_key_neg t k hq
    · rw [if_neg hp]
      exact alookup_filter_key_neg t k hq

theorem foldl_setItem_not_mem (g : String → TagVal) :
    ∀ (L : List String) (f : AudioFile) (k : String), k ∉ L →
      alookup ((L.foldl (fun d x => d.setItem x (g x)) f).data) k = alookup f.data k
  | [], _, _, _ => rfl
  | a :: t, f, k, hk => by
    rw [List.foldl_cons]
    have hka : ¬ a = k := fun hc => hk (by rw [hc]; exact List.mem_cons_self _ _)
    rw [foldl_setItem_not_mem g t _ k (fun hc => hk (List.mem_cons_of_mem _ hc)),
      alookup_setItem_other f a (g a) k hka]

theorem foldl_setItem_mem (g : String → TagVal) :
    ∀ (L : List String) (f : AudioFile) (k : String), L.Nodup → k ∈ L →
      f.blacklisted k = false → f.supported k = true →
      alookup ((L.foldl (fun d x => d.setItem x (g x)) f).data) k = some (g k)
  | [], _, k, _, hk, _, _ => absurd hk (List.not_mem_nil k)
  | a :: t, f, k, hnd, hk, hb, hs => by
    rw [List.foldl_cons]
    rw [List.nodup_cons] at hnd
    rcases List.mem_cons.mp hk with rfl | hk2
    · rw [foldl_setItem_not_mem g t _ k hnd.1]
      exact alookup_setItem_self f k (g k) hb hs
    · refine foldl_setItem_mem g t _ k hnd.2 hk2 ?_ ?_
      · rw [setItem_blacklisted]
        exact hb
      · rw [setItem_supported]
        exact hs

theorem dest_blacklisted_eq_src (sd dd : TagData) (ss ds : String → Bool) (k : String) :
    (mkAudioFile dd ds (mkAudioFile sd ss blacklist_regexes).blacklist).blacklisted k
      = (mkAudioFile sd ss blacklist_regexes).blacklisted k := by
  unfold mkAudioFile AudioFile.blacklisted
  simp only [List.any_cons]
  rw [← Bool.or_assoc, Bool.or_self]

/-- C6 (confirmed): after a successful `copy_tags(src, dest)` — the
destination adapter's blacklist being derived from the source's — (a) every
non-blacklisted key of the source tag dictionary that the destination format
supports ends up in the destination with the source's value, (b) every
non-blacklisted key previously in the destination but absent from the source
is absent afterwards (clear-then-copy), and (c) blacklisted keys of the
destination are left exactly as they were. -/
theorem c6_clear_then_copy (srcData destData : TagData) (srcSup destSup : String → Bool)
    (hnd : (srcData.map Prod.fst).Nodup) :
    (∀ k v, (mkAudioFile srcData srcSup blacklist_regexes).blacklisted k = false →
        alookup srcData k = some v → destSup k = true →
        alookup (copy_tags srcData destData srcSup destSup) k = some v) ∧
    (∀ k, (mkAudioFile srcData srcSup blacklist_regexes).blacklisted k = false →
        k ∈ destData.map Prod.fst → alookup srcData k = none →
        alookup (copy_tags srcData destData srcSup destSup) k = none) ∧
    (∀ k, (mkAudioFile srcData srcSup blacklist_regexes).blacklisted k = true →
        alookup (copy_tags srcData destData srcSup destSup) k = alookup destData k) := by
  have hmain : ∀ k, alookup (copy_tags srcData destData srcSup destSup) k
      = alookup (((mkAudioFile srcData srcSup blacklist_regexes).keys.foldl
          (fun d x => d.setItem x
            (((mkAudioFile srcData srcSup blacklist_regexes).getItem x).getD []))
          (mkAudioFile destData destSup
            (mkAudioFile srcData srcSup blacklist_regexes).blacklist).clear).data) k :=
    fun _ => rfl
  have hkeysnd : (mkAudioFile srcData srcSup blacklist_regexes).keys.Nodup := by
    unfold AudioFile.keys
    exact hnd.filter _
  refine ⟨?_, ?_, ?_⟩
  · intro k v hb hsrc hsup
    have hkmem : k ∈ (mkAudioFile srcData srcSup blacklist_regexes).keys := by
      unfold AudioFile.keys
      rw [List.mem_filter]
      constructor
      · by_contra hc
        rw [(alookup_eq_none_iff srcData k).mpr hc] at hsrc
        exact Option.noConfusion hsrc
      · rw [hb]
        rfl
    have hbc : (mkAudioFile destData destSup
        (mkAudioFile srcData srcSup blacklist_regexes).blacklist).clear.blacklisted k
        = false := by
      show (mkAudioFile destData destSup
        (mkAudioFile srcData srcSup blacklist_regexes).blacklist).blacklisted k = false
      rw [dest_blacklisted_eq_src]
      exact hb
    have hsc : (mkAudioFile destData destSup
        (mkAudioFile srcData srcSup blacklist_regexes).blacklist).clear.supported k = true :=
      hsup
    have hres := foldl_setItem_mem
      (fun x => ((mkAudioFile srcData srcSup blacklist_regexes).getItem x).getD [])
      (mkAudioFile srcData srcSup blacklist_regexes).keys
      (mkAudioFile destData destSup
        (mkAudioFile srcData srcSup blacklist_regexes).blacklist).clear
      k hkeysnd hkmem hbc hsc
    rw [hmain k, hres]
    show some (((mkAudioFile srcData srcSup blacklist_regexes).getItem k).getD []) = some v
    unfold AudioFile.getItem
    rw [if_neg (by rw [hb]; exact Bool.false_ne_true)]
    show some ((alookup srcData k).getD []) = some v
    rw [hsrc]
    rfl
  · intro k hb hmem hnone
    have hknot : k ∉ (mkAudioFile srcData srcSup blacklist_regexes).keys := by
      intro hc
      unfold AudioFile.keys at hc
      exact (alookup_eq_none_iff srcData k).mp hnone (List.mem_filter.mp hc).1
    rw [hmain k, foldl_setItem_not_mem _ _ _ k hknot]
    show alookup (destData.filter (fun p =>
      (mkAudioFile destData destSup
        (mkAudioFile srcData srcSup blacklist_regexes).blacklist).blacklisted p.1)) k = none
    apply alookup_filter_key_neg
    rw [dest_blacklisted_eq_src]
    exact hb
  · intro k hb
    have hknot : k ∉ (mkAudioFile srcData srcSup blacklist_regexes).keys := by
      intro hc
      unfold AudioFile.keys at hc
      have h2 := (List.mem_filter.mp hc).2
      rw [hb, Bool.not_true] at h2
      exact Bool.false_ne_true h2
    rw [hmain k, foldl_setItem_not_mem _ _ _ k hknot]
    show alookup (destData.filter (fun p =>
      (mkAudioFile destData destSup
        (mkAudioFile srcData srcSup blacklist_regexes).blacklist).blacklisted p.1)) k
      = alookup destData k
    apply alookup_filter_key_pos
    rw [dest_blacklisted_eq_src]
    exact hb

/-- Witness for C6 at concrete inputs: the supported non-blacklisted key
`"artist"` is copied, the stale destination key `"genre"` is cleared, and the
blacklisted destination key `"replaygain_track_gain"` is untouched. -/
theorem c6_witness :
    alookup (copy_tags [("artist", ["Foo"]), ("encodedby", ["lame"])]
        [("artist", ["Bar"]), ("genre", ["Rock"]), ("replaygain_track_gain", ["+1"])]
        (fun _ => true) (fun _ => true)) "artist" = some ["Foo"] ∧
    alookup (copy_tags [("artist", ["Foo"]), ("encodedby", ["lame"])]
        [("artist", ["Bar"]), ("genre", ["Rock"]), ("replaygain_track_gain", ["+1"])]
        (fun _ => true) (fun _ => true)) "genre" = none ∧
    alookup (copy_tags [("artist", ["Foo"]), ("encodedby", ["lame"])]
        [("artist", ["Bar"]), ("genre", ["Rock"]), ("replaygain_track_gain", ["+1"])]
        (fun _ => true) (fun _ => true)) "replaygain_track_gain"
      = alookup [("artist", ["Bar"]), ("genre", ["Rock"]), ("replaygain_track_gain", ["+1"])]
          "replaygain_track_gain" :=
  ⟨(c6_clear_then_copy _ _ _ _ (by decide)).1 "artist" ["Foo"] (by decide) (by decide)
      (by decide),
   (c6_clear_then_copy _ _ _ _ (by decide)).2.1 "genre" (by decide) (by decide) (by decide),
   (c6_clear_then_copy _ _ _ _ (by decide)).2.2 "replaygain_track_gain" (by decide)⟩

/-! ## C4: substitution and round-trip on clean paths -/

theorem splitSep_ne_nil (sep : Char) : ∀ l : List Char, splitSep sep l ≠ []
  | [] => by simp [splitSep]
  | c :: cs => by
    unfold splitSep
    rcases h : splitSep sep cs with _ | ⟨h1, t1⟩
    · simp
    · by_cases hc : c = sep <;> simp [hc]

theorem joinSep_cons_ne (sep : Char) (s : List Char) {t : List (List Char)} (ht : t ≠ []) :
    joinSep sep (s :: t) = s ++ sep :: joinSep sep t := by
  rcases t with _ | ⟨u, r⟩
  · exact absurd rfl ht
  · rfl

theorem joinSep_cons_cons (sep : Char) (c : Char) (h : List Char) (t : List (List Char)) :
    joinSep sep ((c :: h) :: t) = c :: joinSep sep (h :: t) := by
  rcases t with _ | ⟨u, r⟩
  · rfl
  · rfl

theorem splitSep_no_sep (sep : Char) : ∀ s : List Char, sep ∉ s → splitSep sep s = [s]
  | [], _ => rfl
  | c :: cs, h => by
    have hc : ¬ c = sep := fun hc => h (by rw [hc]; exact List.mem_cons_self _ _)
    unfold splitSep
    rw [splitSep_no_sep sep cs (fun hm => h (List.mem_cons_of_mem _ hm))]
    simp [hc]

theorem splitSep_cons (sep c : Char) (cs : List Char) :
    splitSep sep (c :: cs)
      = match splitSep sep cs with
        | [] => [[c]]
        | h :: t => if c = sep then [] :: h :: t else (c :: h) :: t := rfl

theorem splitSep_append_sep (sep : Char) :
    ∀ (s t : List Char), sep ∉ s → splitSep sep (s ++ sep :: t) = s :: splitSep sep t
  | [], t, _ => by
    show splitSep sep (sep :: t) = [] :: splitSep sep t
    rw [splitSep_cons]
    rcases h : splitSep sep t with _ | ⟨h1, t1⟩
    · exact absurd h (splitSep_ne_nil sep t)
    · simp
  | c :: cs, t, h => by
    have hc : ¬ c = sep := fun hc => h (by rw [hc]; exact List.mem_cons_self _ _)
    show splitSep sep (c :: (cs ++ sep :: t)) = (c :: cs) :: splitSep sep t
    rw [splitSep_cons, splitSep_append_sep sep cs t (fun hm => h (List.mem_cons_of_mem _ hm))]
    simp [hc]

theorem splitSep_joinSep (sep : Char) :
    ∀ L : List (List Char), L ≠ [] → (∀ s ∈ L, sep ∉ s) →
      splitSep sep (joinSep sep L) = L
  | [], h, _ => absurd rfl h
  | [s], _, hs => by
    show splitSep sep s = [s]
    exact splitSep_no_sep sep s (hs s (List.mem_singleton.mpr rfl))
  | s :: u :: r, _, hs => by
    rw [joinSep_cons_ne sep s (by simp),
      splitSep_append_sep sep s (joinSep sep (u :: r)) (hs s (List.mem_cons_self _ _)),
      splitSep_joinSep sep (u :: r) (by simp) (fun x hx => hs x (List.mem_cons_of_mem _ hx))]

theorem joinSep_splitSep (sep : Char) : ∀ l : List Char, joinSep sep (splitSep sep l) = l
  | [] => rfl
  | c :: cs => by
    rw [splitSep_cons]
    rcases h : splitSep sep cs with _ | ⟨h1, t1⟩
    · exact absurd h (splitSep_ne_nil sep cs)
    · show joinSep sep (if c = sep then [] :: h1 :: t1 else (c :: h1) :: t1) = c :: cs
      by_cases hc : c = sep
      · rw [if_pos hc, joinSep_cons_ne sep [] (by simp)]
        show sep :: joinSep sep (h1 :: t1) = c :: cs
        rw [← h, joinSep_splitSep sep cs, hc]
      · rw [if_neg hc, joinSep_cons_cons, ← h, joinSep_splitSep sep cs]

theorem foldl_npStep_good (b : Bool) :
    ∀ (comps : List (List Char)) (acc : List (List Char)), (∀ s ∈ comps, goodSeg s) →
      comps.foldl (npStep b) acc = acc ++ comps
  | [], acc, _ => by simp
  | s :: t, acc, h => by
    rw [List.foldl_cons]
    have hs := h s (List.mem_cons_self _ _)
    have hstep : npStep b acc s = acc ++ [s] := by
      unfold npStep
      rw [if_neg (by
          rintro (hc | hc)
          · exact hs.1 hc
          · exact hs.2.1 hc),
        if_pos (Or.inl hs.2.2.1)]
    rw [hstep, foldl_npStep_good b t _ (fun x hx => h x (List.mem_cons_of_mem _ hx)),
      List.append_assoc]
    rfl

theorem joinSep_head_append (sep : Char) (s : List Char) (t : List (List Char)) :
    ∃ r, joinSep sep (s :: t) = s ++ r := by
  rcases t with _ | ⟨u, q⟩
  · exact ⟨[], by simp [joinSep]⟩
  · exact ⟨sep :: joinSep sep (u :: q), rfl⟩

theorem getLast?_mem_of_eq {α : Type} : ∀ (l : List α) (a : α), l.getLast? = some a → a ∈ l
  | [], a, h => Option.noConfusion h
  | [x], a, h => by
    rw [List.getLast?_singleton] at h
    rw [List.mem_singleton]
    exact (Option.some_inj.mp h).symm
  | x :: y :: t, a, h => by
    rw [List.getLast?_cons_cons] at h
    exact List.mem_cons_of_mem _ (getLast?_mem_of_eq (y :: t) a h)

theorem goodSeg_getLast_ne (s : List Char) (hs : goodSeg s) : ¬ s.getLast? = some '/' :=
  fun hc => hs.2.2.2 (getLast?_mem_of_eq s '/' hc)

theorem goodSeg_take_ne_slash (s : List Char) (hs : goodSeg s) : ¬ s.take 1 = ['/'] := by
  rcases s with _ | ⟨c, cs⟩
  · exact absurd rfl hs.1
  · rw [List.take_succ_cons, List.take_zero]
    intro hc
    have hce : c = '/' := by simpa using hc
    exact hs.2.2.2 (hce ▸ List.mem_cons_self c cs)

theorem normpathC_fixes_abs (rest : List (List Char)) (hne : rest ≠ [])
    (hgood : ∀ s ∈ rest, goodSeg s) :
    normpathC (joinSep '/' ([] :: rest)) = joinSep '/' ([] :: rest) := by
  rcases rest with _ | ⟨s0, t⟩
  · exact absurd rfl hne
  have hs0 := hgood s0 (List.mem_cons_self s0 t)
  rcases s0 with _ | ⟨c0, s0'⟩
  · exact absurd rfl hs0.1
  have hc0 : ¬ c0 = '/' := by
    intro hc
    apply hs0.2.2.2
    rw [← hc]
    exact List.mem_cons_self _ _
  obtain ⟨r, hr⟩ := joinSep_head_append '/' (c0 :: s0') t
  have hp : joinSep '/' ([] :: (c0 :: s0') :: t) = '/' :: c0 :: (s0' ++ r) := by
    rw [joinSep_cons_ne '/' [] (by simp), hr]
    rfl
  have hisl : nInitialSlashes (joinSep '/' ([] :: (c0 :: s0') :: t)) = 1 := by
    rw [hp]
    unfold nInitialSlashes
    rw [if_pos (show List.take 1 ('/' :: c0 :: (s0' ++ r)) = ['/'] from rfl), if_neg (by
      rintro ⟨h2, _⟩
      apply hc0
      simpa using h2)]
  have hsplit : splitSep '/' (joinSep '/' ([] :: (c0 :: s0') :: t))
      = [] :: (c0 :: s0') :: t :=
    splitSep_joinSep '/' _ (by simp) (by
      intro s hsmem
      rcases List.mem_cons.mp hsmem with rfl | hsmem2
      · exact List.not_mem_nil '/'
      · exact (hgood s hsmem2).2.2.2)
  have hfold : (([] : List Char) :: (c0 :: s0') :: t).foldl (npStep ((1 : Nat) != 0)) []
      = (c0 :: s0') :: t := by
    rw [List.foldl_cons]
    have h0 : npStep ((1 : Nat) != 0) [] [] = [] := by
      unfold npStep
      rw [if_pos (Or.inl rfl)]
    rw [h0, foldl_npStep_good _ _ _ hgood]
    rfl
  unfold normpathC
  rw [if_neg (by rw [hp]; simp), hisl, hsplit, hfold,
    if_neg (show ¬ List.replicate 1 '/' ++ joinSep '/' ((c0 :: s0') :: t) = [] by simp)]
  rw [hr, hp]
  rfl

theorem normpathC_fixes_rel (L : List (List Char)) (hne : L ≠ [])
    (hgood : ∀ s ∈ L, goodSeg s) :
    normpathC (joinSep '/' L) = joinSep '/' L := by
  rcases L with _ | ⟨s0, t⟩
  · exact absurd rfl hne
  have hs0 := hgood s0 (List.mem_cons_self s0 t)
  rcases s0 with _ | ⟨c0, s0'⟩
  · exact absurd rfl hs0.1
  have hc0 : ¬ c0 = '/' := by
    intro hc
    apply hs0.2.2.2
    rw [← hc]
    exact List.mem_cons_self _ _
  obtain ⟨r, hr⟩ := joinSep_head_append '/' (c0 :: s0') t
  have hp : joinSep '/' ((c0 :: s0') :: t) = c0 :: (s0' ++ r) := by
    rw [hr]
    rfl
  have hisl : nInitialSlashes (joinSep '/' ((c0 :: s0') :: t)) = 0 := by
    rw [hp]
    unfold nInitialSlashes
    rw [if_neg (by
      intro hc
      apply hc0
      simpa using hc)]
  have hsplit : splitSep '/' (joinSep '/' ((c0 :: s0') :: t)) = (c0 :: s0') :: t :=
    splitSep_joinSep '/' _ (by simp) (fun s hs => (hgood s hs).2.2.2)
  have hfold : ((c0 :: s0') :: t).foldl (npStep ((0 : Nat) != 0)) [] = (c0 :: s0') :: t := by
    rw [foldl_npStep_good _ _ _ hgood]
    rfl
  unfold normpathC
  rw [if_neg (by rw [hp]; simp), hisl, hsplit, hfold,
    if_neg (by
      rw [show List.replicate 0 '/' ++ joinSep '/' ((c0 :: s0') :: t)
        = joinSep '/' ((c0 :: s0') :: t) from rfl, hp]
      simp)]
  rfl

theorem normpathC_fixes_clean (L : List (List Char)) (h : cleanSegs L) :
    normpathC (joinSep '/' L) = joinSep '/' L := by
  obtain ⟨hne, habs | hrel⟩ := h
  · rcases L with _ | ⟨h0, t⟩
    · exact absurd rfl hne
    obtain ⟨hhead, htail, hgood⟩ := habs
    have h0e : h0 = [] := by simpa using hhead
    subst h0e
    exact normpathC_fixes_abs t (by simpa using htail) (by simpa using hgood)
  · exact normpathC_fixes_rel L hne hrel.2

theorem foldl_pyJoin2_good :
    ∀ (t : List (List Char)) (a : List Char), (∀ s ∈ t, goodSeg s) →
      ¬ a = [] → ¬ a.getLast? = some '/' →
      t.foldl pyJoin2C a = if t = [] then a else a ++ '/' :: joinSep '/' t
  | [], a, _, _, _ => by simp
  | s :: r, a, hgood, ha, hal => by
    have hs := hgood s (List.mem_cons_self s r)
    have hstep : pyJoin2C a s = a ++ '/' :: s := by
      unfold pyJoin2C
      rw [if_neg (goodSeg_take_ne_slash s hs), if_neg (by
        rintro (hc | hc)
        · exact ha hc
        · exact hal hc)]
    have hlast : ¬ (a ++ '/' :: s).getLast? = some '/' := by
      rcases s with _ | ⟨c, s'⟩
      · exact absurd rfl hs.1
      rw [List.getLast?_append, List.getLast?_cons_cons]
      intro hc
      rcases hl : (c :: s').getLast? with _ | x
      · rw [List.getLast?_eq_none_iff] at hl
        exact List.noConfusion hl
      · rw [hl] at hc
        have hx : x = '/' := by simpa using hc
        exact goodSeg_getLast_ne (c :: s') hs (hx ▸ hl)
    rw [List.foldl_cons, hstep,
      foldl_pyJoin2_good r (a ++ '/' :: s)
        (fun x hx => hgood x (List.mem_cons_of_mem _ hx)) (by simp) hlast,
      if_neg (show ¬ (s :: r) = [] by simp)]
    by_cases hr : r = []
    · rw [if_pos hr, hr]
      rfl
    · rw [if_neg hr, joinSep_cons_ne '/' s hr, List.append_assoc]
      rfl

theorem pyJoinList_abs (rest : List (List Char)) (hne : rest ≠ [])
    (hgood : ∀ s ∈ rest, goodSeg s) :
    pyJoinListC (['/'] :: rest) = joinSep '/' ([] :: rest) := by
  rcases rest with _ | ⟨s0, r⟩
  · exact absurd rfl hne
  have hs0 := hgood s0 (List.mem_cons_self s0 r)
  show (s0 :: r).foldl pyJoin2C ['/'] = _
  rw [List.foldl_cons]
  have hstep : pyJoin2C ['/'] s0 = '/' :: s0 := by
    unfold pyJoin2C
    rw [if_neg (goodSeg_take_ne_slash s0 hs0),
      if_pos (Or.inr (show (['/'] : List Char).getLast? = some '/' from rfl))]
    rfl
  have hlast : ¬ ('/' :: s0).getLast? = some '/' := by
    rcases s0 with _ | ⟨c, s'⟩
    · exact absurd rfl hs0.1
    rw [List.getLast?_cons_cons]
    exact goodSeg_getLast_ne (c :: s') hs0
  rw [hstep,
    foldl_pyJoin2_good r ('/' :: s0) (fun x hx => hgood x (List.mem_cons_of_mem _ hx))
      (by simp) hlast]
  by_cases hr : r = []
  · rw [if_pos hr, hr]
    rfl
  · rw [if_neg hr, joinSep_cons_ne '/' ([] : List Char) (by simp),
      joinSep_cons_ne '/' s0 hr]
    rfl

theorem pyJoinList_rel (s0 : List Char) (r : List (List Char)) (hs0 : goodSeg s0)
    (hgood : ∀ s ∈ r, goodSeg s) :
    pyJoinListC (s0 :: r) = joinSep '/' (s0 :: r) := by
  show r.foldl pyJoin2C s0 = _
  rw [foldl_pyJoin2_good r s0 hgood hs0.1 (goodSeg_getLast_ne s0 hs0)]
  by_cases hr : r = []
  · rw [if_pos hr, hr]
    rfl
  · rw [if_neg hr, joinSep_cons_ne '/' s0 hr]

theorem drop_good_of_clean (P : List (List Char)) (hP : cleanSegs P) (n : Nat) (hn : 1 ≤ n) :
    ∀ s ∈ P.drop n, goodSeg s := by
  obtain ⟨hne, habs | hrel⟩ := hP
  · intro s hs
    obtain ⟨hhead, htail, hgood⟩ := habs
    rcases P with _ | ⟨h0, t⟩
    · exact absurd rfl hne
    have h0e : h0 = [] := by simpa using hhead
    subst h0e
    rcases n with _ | m
    · omega
    · rw [List.drop_succ_cons] at hs
      exact (by simpa using hgood : ∀ s ∈ t, goodSeg s) s (List.mem_of_mem_drop hs)
  · intro s hs
    exact hrel.2 s (List.mem_of_mem_drop hs)

theorem cleanSegs_append_good (N D : List (List Char)) (hN : cleanSegs N)
    (hD : ∀ s ∈ D, goodSeg s) : cleanSegs (N ++ D) := by
  obtain ⟨hne, habs | hrel⟩ := hN
  · rcases N with _ | ⟨h0, t⟩
    · exact absurd rfl hne
    obtain ⟨hhead, htail, hgood⟩ := habs
    have h0e : h0 = [] := by simpa using hhead
    subst h0e
    refine ⟨by simp, Or.inl ⟨rfl, ?_, ?_⟩⟩
    · show ¬ t ++ D = []
      intro hc
      rcases List.append_eq_nil.mp hc with ⟨ht, _⟩
      exact (by simpa using htail : ¬ t = []) ht
    · show ∀ s ∈ t ++ D, goodSeg s
      intro s hs
      rcases List.mem_append.mp hs with hs | hs
      · exact (by simpa using hgood : ∀ s ∈ t, goodSeg s) s hs
      · exact hD s hs
  · rcases N with _ | ⟨h0, t⟩
    · exact absurd rfl hne
    refine ⟨by simp, Or.inr ⟨?_, ?_⟩⟩
    · show ¬ (h0 :: (t ++ D)).head? = some []
      simpa using hrel.1
    · intro s hs
      rcases List.mem_append.mp (by simpa using hs : s ∈ (h0 :: t) ++ D) with hs2 | hs2
      · exact hrel.2 s hs2
      · exact hD s hs2

theorem pyJoinList_fixLeadingEmpty_clean (L : List (List Char)) (h : cleanSegs L) :
    pyJoinListC (fixLeadingEmpty L) = joinSep '/' L := by
  obtain ⟨hne, habs | hrel⟩ := h
  · rcases L with _ | ⟨h0, t⟩
    · exact absurd rfl hne
    obtain ⟨hhead, htail, hgood⟩ := habs
    have h0e : h0 = [] := by simpa using hhead
    subst h0e
    show pyJoinListC (if ([] : List Char) = [] then ['/'] :: t else [] :: t) = _
    rw [if_pos rfl]
    exact pyJoinList_abs t (by simpa using htail) (by simpa using hgood)
  · rcases L with _ | ⟨h0, t⟩
    · exact absurd rfl hne
    have hh0 : goodSeg h0 := hrel.2 h0 (List.mem_cons_self _ _)
    show pyJoinListC (if h0 = [] then ['/'] :: t else h0 :: t) = _
    rw [if_neg hh0.1]
    exact pyJoinList_rel h0 t hh0 (fun s hs => hrel.2 s (List.mem_cons_of_mem _ hs))

theorem zip_self_all_beq (A : List (List Char)) :
    ((A.zip A).all (fun ab => ab.1 == ab.2)) = true := by
  rw [zip_all_beq_iff]

theorem substRootsC_clean_ok (path oldp newp : List Char)
    (hN : cleanSegs (splitSep '/' (normpathC newp)
        ++ (splitSep '/' (normpathC path)).drop (splitSep '/' (normpathC oldp)).length))
    (hpre : (splitSep '/' (normpathC path)).take (splitSep '/' (normpathC oldp)).length
        = splitSep '/' (normpathC oldp)) :
    substRootsC path oldp newp
      = .ok (joinSep '/' (splitSep '/' (normpathC newp)
          ++ (splitSep '/' (normpathC path)).drop (splitSep '/' (normpathC oldp)).length)) := by
  unfold substRootsC
  rw [if_pos (by rw [hpre]; exact zip_self_all_beq _),
    pyJoinList_fixLeadingEmpty_clean _ hN]

theorem cleanSegs_no_sep (L : List (List Char)) (h : cleanSegs L) : ∀ s ∈ L, '/' ∉ s := by
  obtain ⟨hne, habs | hrel⟩ := h
  · rcases L with _ | ⟨h0, t⟩
    · exact absurd rfl hne
    obtain ⟨hhead, htail, hgood⟩ := habs
    have h0e : h0 = [] := by simpa using hhead
    subst h0e
    intro s hs
    rcases List.mem_cons.mp hs with rfl | hs2
    · exact List.not_mem_nil _
    · exact ((by simpa using hgood : ∀ s ∈ t, goodSeg s) s hs2).2.2.2
  · exact fun s hs => (hrel.2 s hs).2.2.2

/-- C4 (corrected): restricted to paths whose NORMALIZED components are clean
(absolute or relative with no empty, `"."`, or `".."` components beyond a
leading root — in particular neither root argument is the bare `"/"`), with
`path` itself already normalized and `path`'s components starting with
`oldRoot`'s: `substitute_prefix` succeeds, the components of its output are
exactly `newRoot`'s components followed by `path`'s remaining components, and
substituting back with the roots swapped returns the original `path`.
Without these restrictions the original claim is false: see
`c4_counterexample_bare_root`. -/
theorem c4_segments_and_roundtrip (path oldp newp : String)
    (hP : cleanSegs (pySegs path)) (hN : cleanSegs (pySegs newp))
    (hO : cleanSegs (pySegs oldp))
    (hpre : (pySegs path).take (pySegs oldp).length = pySegs oldp)
    (hnorm : normpath path = path) :
    ∃ r : String, substRoots path oldp newp = .ok r ∧
      pySegs r = pySegs newp ++ (pySegs path).drop (pySegs oldp).length ∧
      substRoots r newp oldp = .ok path := by
  have hOne : 1 ≤ (pySegs oldp).length := by
    rcases hO with ⟨hne, _⟩
    rcases h : pySegs oldp with _ | ⟨x, t⟩
    · exact absurd h hne
    · simp [h]
  have hdropgood : ∀ s ∈ (pySegs path).drop (pySegs oldp).length, goodSeg s :=
    drop_good_of_clean _ hP _ hOne
  have hND : cleanSegs (pySegs newp ++ (pySegs path).drop (pySegs oldp).length) :=
    cleanSegs_append_good _ _ hN hdropgood
  have hfwd := substRootsC_clean_ok path.data oldp.data newp.data hND hpre
  have hsegr0 : splitSep '/'
      (normpathC (joinSep '/' (pySegs newp ++ (pySegs path).drop (pySegs oldp).length)))
      = pySegs newp ++ (pySegs path).drop (pySegs oldp).length := by
    rw [normpathC_fixes_clean _ hND, splitSep_joinSep '/' _ hND.1 (cleanSegs_no_sep _ hND)]
  have hODP : pySegs oldp ++ (pySegs path).drop (pySegs oldp).length = pySegs path := by
    nth_rewrite 1 [← hpre]
    exact List.take_append_drop _ _
  have hpre2 : (splitSep '/'
      (normpathC (joinSep '/' (pySegs newp ++ (pySegs path).drop (pySegs oldp).length)))).take
        (pySegs newp).length = pySegs newp := by
    rw [hsegr0]
    exact List.take_left _ _
  have hND2 : cleanSegs (pySegs oldp ++ (splitSep '/'
      (normpathC (joinSep '/'
        (pySegs newp ++ (pySegs path).drop (pySegs oldp).length)))).drop
          (pySegs newp).length) := by
    rw [hsegr0, List.drop_left, hODP]
    exact hP
  have hback := substRootsC_clean_ok
    (joinSep '/' (pySegs newp ++ (pySegs path).drop (pySegs oldp).length))
    newp.data oldp.data hND2 hpre2
  have hnd : normpathC path.data = path.data := congrArg String.data hnorm
  refine ⟨⟨joinSep '/' (pySegs newp ++ (pySegs path).drop (pySegs oldp).length)⟩, ?_, ?_, ?_⟩
  · unfold substRoots
    rw [hfwd]
    rfl
  · exact hsegr0
  · show (substRootsC
        (joinSep '/' (pySegs newp ++ (pySegs path).drop (pySegs oldp).length))
        newp.data oldp.data).map (fun l => (⟨l⟩ : String)) = .ok path
    rw [hback]
    show Except.ok (⟨joinSep '/' (pySegs oldp ++ (splitSep '/'
      (normpathC (joinSep '/'
        (pySegs newp ++ (pySegs path).drop (pySegs oldp).length)))).drop
          (pySegs newp).length)⟩ : String) = Except.ok path
    rw [hsegr0, List.drop_left, hODP,
      show pySegs path = splitSep '/' (normpathC path.data) from rfl,
      joinSep_splitSep, hnd]

/-- C4 counterexample: at `("/a/b", "/a", "/")` — a triple satisfying the
claim's hypothesis that path's segments start with oldRoot's — the output is
`"/b"`, whose segments are NOT `newRoot`'s segments followed by the remaining
segments (the bare root's normalized components are `["", ""]`), and
substituting back with the roots swapped does not recover `"/a/b"`: it raises
`PrefixMismatch`. -/
theorem c4_counterexample_bare_root :
    (pySegs "/a/b").take (pySegs "/a").length = pySegs "/a" ∧
    substRoots "/a/b" "/a" "/" = .ok "/b" ∧
    ¬ pySegs "/b" = pySegs "/" ++ (pySegs "/a/b").drop (pySegs "/a").length ∧
    substRoots "/b" "/" "/a" = .error (.prefixMismatch "/b" "/") :=
  ⟨by decide, rfl, by decide, rfl⟩

/-- Witness for the corrected C4 at a concrete clean triple. -/
theorem c4_witness :
    ∃ r : String, substRoots "/a/b/c" "/a" "/z" = .ok r ∧
      pySegs r = pySegs "/z" ++ (pySegs "/a/b/c").drop (pySegs "/a").length ∧
      substRoots r "/z" "/a" = .ok "/a/b/c" :=
  c4_segments_and_roundtrip "/a/b/c" "/a" "/z" (by decide) (by decide) (by decide)
    (by decide) (by decide)
